import Mathlib

/-!
Verification of the configuration-resolution core of the
`toppynl/hookdeck-deploy-cli` repository: the deep-merge engine, the
inheritance resolver, the environment-overlay resolvers, the env-var
interpolator, the multi-manifest registry and the drift comparator.

The repository contains two coexisting manifest shapes (see spec design
notes): a singular shape (one resource per file, `extends`, whole-manifest
`env` overlays) and a plural shape (resource lists per file, per-resource
`env` override maps).  They are embedded in namespaces `Single` and
`Plural` respectively; names inside each namespace follow the Go source.

Modelling conventions:
* Go `map[string]T` values are association lists `List (String × T)` with
  unique keys; Go map writes (`m[k] = v`) are `GoMap.set` (replace the
  existing entry, else append).  A `nil` Go map or slice is `Option.none`.
* `interface{}` payload values are an opaque type parameter `V`.
* Pointer-typed resource fields are `Option`; JSON-null entries inside
  `env` maps (a nil pointer stored under a present key, on which the Go
  code would panic) are outside the model: map entries are plain values.
* Error values built with `fmt.Errorf` are `String`s with the same text
  except that the single-quote characters Go places around interpolated
  names are omitted.
-/

namespace GoMap

/-- Association-list lookup, the embedding of a Go map read `m[k]`. -/
def get? {V : Type} : List (String × V) → String → Option V
  | [], _ => none
  | e :: rest, k => if e.1 = k then some e.2 else get? rest k

/-- Association-list write, the embedding of a Go map write `m[k] = v`:
replace the value of the (unique) entry holding `k`, else append. -/
def set {V : Type} : List (String × V) → String → V → List (String × V)
  | [], k, v => [(k, v)]
  | e :: rest, k, v => if e.1 = k then (e.1, v) :: rest else e :: set rest k v

/-- The key list of an association map. -/
def keys {V : Type} (m : List (String × V)) : List String :=
  m.map (·.1)

/-- The embedding of Go's `for k, v := range src { dst[k] = v }` copy loop. -/
def copyInto {V : Type} (dst src : List (String × V)) : List (String × V) :=
  src.foldl (fun acc e => set acc e.1 e.2) dst

end GoMap

/-! ## Singular manifest shape (`pkg/manifest` types.go / merge.go) -/

namespace Single

/-- `SourceConfig` of the singular manifest shape.  The Go field `Type` is
rendered `Type'` (reserved word); `map[string]interface{}` payloads use the
opaque value type `V`; a nil map is `none`. -/
structure SourceConfig (V : Type) where
  Name : String := ""
  Type' : String := ""
  Description : String := ""
  Config : Option (List (String × V)) := none
deriving DecidableEq

/-- `DestinationConfig` of the singular manifest shape.  `RateLimit` is a Go
`int`, modelled as `Int`. -/
structure DestinationConfig (V : Type) where
  Name : String := ""
  URL : String := ""
  Type' : String := ""
  Description : String := ""
  AuthType : String := ""
  Auth : Option (List (String × V)) := none
  Config : Option (List (String × V)) := none
  RateLimit : Int := 0
  RateLimitPeriod : String := ""
deriving DecidableEq

/-- `ConnectionConfig`: `Rules` is a nil-able slice of free-form maps,
`Filter` a nil-able map, `Transformations` a slice of names (only its
length is ever tested, so nil and empty are not distinguished). -/
structure ConnectionConfig (V : Type) where
  Name : String := ""
  Source : String := ""
  Destination : String := ""
  Rules : Option (List (List (String × V))) := none
  Filter : Option (List (String × V)) := none
  Transformations : List String := []
deriving DecidableEq

/-- `TransformationConfig`: `Env` is the env-var map, `EnvVars` the
deprecated backward-compat alias merged into `Env` at load time. -/
structure TransformationConfig where
  Name : String := ""
  Description : String := ""
  CodeFile : String := ""
  Env : Option (List (String × String)) := none
  EnvVars : Option (List (String × String)) := none
deriving DecidableEq

/-- `EnvOverride`: a partial manifest used as a per-environment overlay. -/
structure EnvOverride (V : Type) where
  Profile : String := ""
  Source : Option (SourceConfig V) := none
  Destination : Option (DestinationConfig V) := none
  Connection : Option (ConnectionConfig V) := none
  Transformation : Option TransformationConfig := none
deriving DecidableEq

/-- The singular-shape `Manifest`.  The Go `Env` field is
`map[string]*EnvOverride`; entries are modelled as plain overlays
(JSON-null entries are outside the model, see the header). -/
structure Manifest (V : Type) where
  Schema : String := ""
  Version : String := ""
  Extends : String := ""
  Profile : String := ""
  Source : Option (SourceConfig V) := none
  Destination : Option (DestinationConfig V) := none
  Connection : Option (ConnectionConfig V) := none
  Transformation : Option TransformationConfig := none
  Env : Option (List (String × EnvOverride V)) := none
deriving DecidableEq

/-- `mergeMapStringInterface`: shallow merge of two nil-able free-form maps;
a nil side returns the other, otherwise a fresh map is filled from parent
then overwritten from child. -/
def mergeMapStringInterface {V : Type} :
    Option (List (String × V)) → Option (List (String × V)) → Option (List (String × V))
  | none, c => c
  | some p, none => some p
  | some p, some c => some (GoMap.copyInto (GoMap.copyInto [] p) c)

/-- `mergeSource`: child wins for non-zero scalar fields; `Config` is
shallow-merged when the child's map is non-nil. -/
def mergeSource {V : Type} :
    Option (SourceConfig V) → Option (SourceConfig V) → Option (SourceConfig V)
  | p, none => p
  | none, some c => some c
  | some p, some c => some {
      Name := if c.Name ≠ "" then c.Name else p.Name
      Type' := if c.Type' ≠ "" then c.Type' else p.Type'
      Description := if c.Description ≠ "" then c.Description else p.Description
      Config := if c.Config.isSome then mergeMapStringInterface p.Config c.Config
                else p.Config }

/-- `mergeDestination`: child wins for non-zero scalars; `Auth` and `Config`
are shallow-merged when the child's map is non-nil. -/
def mergeDestination {V : Type} :
    Option (DestinationConfig V) → Option (DestinationConfig V) → Option (DestinationConfig V)
  | p, none => p
  | none, some c => some c
  | some p, some c => some {
      Name := if c.Name ≠ "" then c.Name else p.Name
      URL := if c.URL ≠ "" then c.URL else p.URL
      Type' := if c.Type' ≠ "" then c.Type' else p.Type'
      Description := if c.Description ≠ "" then c.Description else p.Description
      AuthType := if c.AuthType ≠ "" then c.AuthType else p.AuthType
      Auth := if c.Auth.isSome then mergeMapStringInterface p.Auth c.Auth else p.Auth
      Config := if c.Config.isSome then mergeMapStringInterface p.Config c.Config
                else p.Config
      RateLimit := if c.RateLimit ≠ 0 then c.RateLimit else p.RateLimit
      RateLimitPeriod := if c.RateLimitPeriod ≠ "" then c.RateLimitPeriod
                         else p.RateLimitPeriod }

/-- `mergeConnection`: `Rules` and `Filter` replace wholesale when the
child's value is non-nil; `Transformations` replaces when non-empty. -/
def mergeConnection {V : Type} :
    Option (ConnectionConfig V) → Option (ConnectionConfig V) → Option (ConnectionConfig V)
  | p, none => p
  | none, some c => some c
  | some p, some c => some {
      Name := if c.Name ≠ "" then c.Name else p.Name
      Source := if c.Source ≠ "" then c.Source else p.Source
      Destination := if c.Destination ≠ "" then c.Destination else p.Destination
      Rules := if c.Rules.isSome then c.Rules else p.Rules
      Filter := if c.Filter.isSome then c.Filter else p.Filter
      Transformations := if c.Transformations.length > 0 then c.Transformations
                         else p.Transformations }

/-- `mergeTransformation`: scalar override plus key-wise env-map merge
(parent entries are defaults, child entries win).  The Go result struct is
built without `EnvVars`, so that field comes out nil. -/
def mergeTransformation :
    Option TransformationConfig → Option TransformationConfig → Option TransformationConfig
  | p, none => p
  | none, some c => some c
  | some p, some c => some {
      Name := if c.Name ≠ "" then c.Name else p.Name
      Description := if c.Description ≠ "" then c.Description else p.Description
      CodeFile := if c.CodeFile ≠ "" then c.CodeFile else p.CodeFile
      Env := if c.Env.isSome then
               some (GoMap.copyInto (GoMap.copyInto [] (p.Env.getD [])) (c.Env.getD []))
             else p.Env
      EnvVars := none }

/-- `mergeEnvOverride`: child wins for the profile scalar, resources merge
via their own rules. -/
def mergeEnvOverride {V : Type} (p c : EnvOverride V) : EnvOverride V :=
  { Profile := if c.Profile ≠ "" then c.Profile else p.Profile
    Source := mergeSource p.Source c.Source
    Destination := mergeDestination p.Destination c.Destination
    Connection := mergeConnection p.Connection c.Connection
    Transformation := mergeTransformation p.Transformation c.Transformation }

/-- The loop body of `mergeEnvMap`: write the child's overlay, merging with
the existing overlay when the key is already present. -/
def envMapStep {V : Type} (acc : List (String × EnvOverride V)) (e : String × EnvOverride V) :
    List (String × EnvOverride V) :=
  match GoMap.get? acc e.1 with
  | some existing => GoMap.set acc e.1 (mergeEnvOverride existing e.2)
  | none => GoMap.set acc e.1 e.2

/-- `mergeEnvMap`: copy the parent map, then fold the child's entries in
with per-key overlay merging. -/
def mergeEnvMap {V : Type} :
    Option (List (String × EnvOverride V)) → Option (List (String × EnvOverride V)) →
    Option (List (String × EnvOverride V))
  | p, none => p
  | none, some c => some c
  | some p, some c => some (c.foldl envMapStep (GoMap.copyInto [] p))

/-- The body of `mergeManifests` for two non-nil manifests: scalar override
for schema / version / profile, per-resource merge, env-map merge, and
`Extends` cleared in the result. -/
def mergeManifestsCore {V : Type} (p c : Manifest V) : Manifest V :=
  { Schema := if c.Schema ≠ "" then c.Schema else p.Schema
    Version := if c.Version ≠ "" then c.Version else p.Version
    Extends := ""
    Profile := if c.Profile ≠ "" then c.Profile else p.Profile
    Source := mergeSource p.Source c.Source
    Destination := mergeDestination p.Destination c.Destination
    Connection := mergeConnection p.Connection c.Connection
    Transformation := mergeTransformation p.Transformation c.Transformation
    Env := mergeEnvMap p.Env c.Env }

/-- `mergeManifests` with the nil guards of the Go function. -/
def mergeManifests {V : Type} :
    Option (Manifest V) → Option (Manifest V) → Option (Manifest V)
  | none, c => c
  | some p, none => some p
  | some p, some c => some (mergeManifestsCore p c)

/-! ### Well-formedness: Go maps carry unique keys, and manifests coming out
of `LoadFile` are normalized (deprecated `EnvVars` alias already merged away). -/

/-- A nil-able free-form map has uniquely-keyed entries (true of every value
a Go map can take). -/
abbrev optNodup {V : Type} (o : Option (List (String × V))) : Prop :=
  (GoMap.keys (o.getD [])).Nodup

abbrev wfSource {V : Type} (c : SourceConfig V) : Prop := optNodup c.Config

abbrev wfSourceOpt {V : Type} (o : Option (SourceConfig V)) : Prop :=
  wfSource (o.getD {})

abbrev wfDestination {V : Type} (c : DestinationConfig V) : Prop :=
  optNodup c.Auth ∧ optNodup c.Config

abbrev wfDestinationOpt {V : Type} (o : Option (DestinationConfig V)) : Prop :=
  wfDestination (o.getD {})

/-- A load-normalized transformation: env keys unique and the deprecated
alias already cleared (as `LoadFile` leaves it). -/
abbrev wfTransformation (c : TransformationConfig) : Prop :=
  optNodup c.Env ∧ c.EnvVars = none

abbrev wfTransformationOpt (o : Option TransformationConfig) : Prop :=
  wfTransformation (o.getD {})

abbrev wfOverride {V : Type} (o : EnvOverride V) : Prop :=
  wfSourceOpt o.Source ∧ wfDestinationOpt o.Destination ∧
    wfTransformationOpt o.Transformation

/-- A well-formed, load-normalized manifest: uniquely-keyed maps throughout,
normalized transformations, and `Extends` already consumed. -/
abbrev wfManifest {V : Type} (c : Manifest V) : Prop :=
  c.Extends = "" ∧ wfSourceOpt c.Source ∧ wfDestinationOpt c.Destination ∧
    wfTransformationOpt c.Transformation ∧ optNodup c.Env ∧
    ∀ e ∈ c.Env.getD [], wfOverride e.2

end Single

/-! ## Environment overlay resolution and inheritance loading (singular shape) -/

namespace Single

/-- `ResolveEnv` (`pkg/manifest/resolve.go`): apply the named overlay from
the manifest's `env` map, or clear the map when no environment is asked
for; unknown environments are an error naming the environment. -/
def ResolveEnv {V : Type} (m : Manifest V) (envName : String) :
    Except String (Manifest V) :=
  if envName = "" then .ok { m with Env := none }
  else
    match m.Env with
    | none => .error ("environment " ++ envName ++ " not found (no env block defined)")
    | some envMap =>
      match GoMap.get? envMap envName with
      | none => .error ("environment " ++ envName ++ " not found in env block")
      | some overlay =>
        .ok { m with
          Profile := if overlay.Profile ≠ "" then overlay.Profile else m.Profile
          Source := mergeSource m.Source overlay.Source
          Destination := mergeDestination m.Destination overlay.Destination
          Connection := mergeConnection m.Connection overlay.Connection
          Transformation := mergeTransformation m.Transformation overlay.Transformation
          Env := none }

/-- Errors of the loading pipeline (`pkg/manifest/loader.go`).  Go wraps the
parent's error with `loading parent <extends>: %w`; `wrapParent` models the
wrapping and `outOfFuel` is the (never reached for uniquely-keyed file
systems) recursion bound of the shallow embedding. -/
inductive LoadErr
  | notFound (path : String)
  | circularExtends (path : String)
  | wrapParent (ext : String) (e : LoadErr)
  | outOfFuel
deriving DecidableEq

/-- Unwrap `wrapParent` layers down to a circular-extends error, the
embedding of `errors.Is`-style inspection of the wrapped chain. -/
def LoadErr.circularPath? : LoadErr → Option String
  | .circularExtends p => some p
  | .wrapParent _ e => e.circularPath?
  | _ => none

/-- `mergeTransformationEnvVars`: fold the deprecated `env_vars` alias into
`env` (existing `env` keys win), clearing the alias afterwards; a nil or
empty alias leaves the transformation untouched. -/
def mergeTransformationEnvVars :
    Option TransformationConfig → Option TransformationConfig
  | none => none
  | some t =>
    if (t.EnvVars.getD []).length = 0 then some t
    else some { t with
      Env := some ((t.EnvVars.getD []).foldl
        (fun acc e => if (GoMap.get? acc e.1).isSome then acc else GoMap.set acc e.1 e.2)
        (t.Env.getD []))
      EnvVars := none }

/-- The backward-compat normalization `LoadFile` applies after parsing: the
manifest's transformation and every env override's transformation get their
`env_vars` alias merged away. -/
def normalizeManifest {V : Type} (m : Manifest V) : Manifest V :=
  { m with
    Transformation := mergeTransformationEnvVars m.Transformation
    Env := m.Env.map (List.map fun e =>
      (e.1, { e.2 with Transformation := mergeTransformationEnvVars e.2.Transformation })) }

/-- `LoadFile` over a file system modelled as a finite map from path to the
parsed manifest (file reading and JSONC standardization are external
collaborators); a missing path is the not-found error. -/
def LoadFile {V : Type} (fs : List (String × Manifest V)) (path : String) :
    Except LoadErr (Manifest V) :=
  match GoMap.get? fs path with
  | none => .error (.notFound path)
  | some m => .ok (normalizeManifest m)

/-- The recursive worker of `LoadWithInheritance`.  `abs` models
`filepath.Abs` and `dirJoin` models `filepath.Join(filepath.Dir(absPath),
extends)`, both external path collaborators; `seen` is the visited set of
canonicalized paths and `fuel` bounds the recursion depth of the shallow
embedding (one manifest is loaded per level, so `|fs| + 1` suffices). -/
def loadWithInheritanceAux {V : Type} (abs : String → String)
    (dirJoin : String → String → String) (fs : List (String × Manifest V)) :
    Nat → String → List String → Except LoadErr (Manifest V)
  | 0, _, _ => .error .outOfFuel
  | fuel + 1, path, seen =>
    let absPath := abs path
    if absPath ∈ seen then .error (.circularExtends absPath)
    else
      match LoadFile fs path with
      | .error e => .error e
      | .ok m =>
        if m.Extends = "" then .ok m
        else
          match loadWithInheritanceAux abs dirJoin fs fuel
              (dirJoin absPath m.Extends) (absPath :: seen) with
          | .error e => .error (.wrapParent m.Extends e)
          | .ok parent => .ok (mergeManifestsCore parent m)

/-- `LoadWithInheritance`: run the worker with an empty visited set. -/
def LoadWithInheritance {V : Type} (abs : String → String)
    (dirJoin : String → String → String) (fs : List (String × Manifest V))
    (path : String) : Except LoadErr (Manifest V) :=
  loadWithInheritanceAux abs dirJoin fs (fs.length + 1) path []

end Single

/-! ## Env-var interpolation (`InterpolateEnvVars`) -/

namespace Single

/-- One character of `encoding/json` string escaping (used when a looked-up
value is substituted: Go marshals the value and strips the quotes). -/
def jsonEscapeChar (c : Char) : List Char :=
  if c = '"' then ['\\', '"']
  else if c = '\\' then ['\\', '\\']
  else if c = '\n' then ['\\', 'n']
  else if c = '\r' then ['\\', 'r']
  else if c = '\t' then ['\\', 't']
  else if c = '<' ∨ c = '>' ∨ c = '&' ∨ c.toNat < 32 then
    ['\\', 'u', '0', '0',
      (if c.toNat / 16 < 10 then Char.ofNat (48 + c.toNat / 16)
       else Char.ofNat (87 + c.toNat / 16)),
      (if c.toNat % 16 < 10 then Char.ofNat (48 + c.toNat % 16)
       else Char.ofNat (87 + c.toNat % 16))]
  else [c]

/-- JSON-escape a whole string (the body of Go's `json.Marshal(val)` with
the surrounding quotes stripped). -/
def jsonEscape (s : String) : List Char :=
  s.data.foldr (fun c acc => jsonEscapeChar c ++ acc) []

/-- Split `cs` at the first closing brace, yielding the (non-empty) name
before it and the rest after it — the `([^}]+)\x7d` tail of the
placeholder pattern.  `none` when there is no match at this position. -/
def splitBrace (cs : List Char) : Option (List Char × List Char) :=
  match cs.findIdx? (· = '}') with
  | none => none
  | some 0 => none
  | some (i + 1) => some (cs.take (i + 1), cs.drop (i + 2))

/-- The scanning core of `InterpolateEnvVars`: walk the marshalled bytes,
replace each `${NAME}` whose variable is set (JSON-escaped), keep the
placeholder and record the name when it is not set.  `fuel` bounds the
recursion of the shallow embedding; every step consumes at least one
character, so the initial `cs.length` is never exhausted. -/
def interpAux (env : String → Option String) :
    Nat → List Char → List Char × List String
  | 0, cs => (cs, [])
  | _ + 1, [] => ([], [])
  | fuel + 1, c :: cs =>
    if c = '$' ∧ cs.head? = some '{' then
      match splitBrace cs.tail with
      | some (name, rest') =>
        let r := interpAux env fuel rest'
        match env (String.mk name) with
        | some v => (jsonEscape v ++ r.1, r.2)
        | none => ('$' :: '{' :: (name ++ '}' :: r.1), String.mk name :: r.2)
      | none =>
        let r := interpAux env fuel cs
        ('$' :: r.1, r.2)
    else
      let r := interpAux env fuel cs
      (c :: r.1, r.2)

/-- Interpolate a marshalled manifest: the replaced text and the list of
missing variable names, in scan order, one entry per occurrence. -/
def interpolateString (env : String → Option String) (s : String) :
    List Char × List String :=
  interpAux env s.data.length s.data

/-- Reference extraction of every `${NAME}` placeholder of a string, in
scan order (the spec's "scan for all occurrences of the placeholder
pattern"); used to characterize which names `interpolateString` reports. -/
def extractAux : Nat → List Char → List String
  | 0, _ => []
  | _ + 1, [] => []
  | fuel + 1, c :: cs =>
    if c = '$' ∧ cs.head? = some '{' then
      match splitBrace cs.tail with
      | some (name, rest') => String.mk name :: extractAux fuel rest'
      | none => extractAux fuel cs
    else extractAux fuel cs

def extractPlaceholders (s : String) : List String :=
  extractAux s.data.length s.data

/-- Go's `%v` rendering of a string slice: bracketed, space-separated. -/
def goFmtStrings : List String → String
  | [] => "[]"
  | l => "[" ++ sepSpace l ++ "]"
where
  sepSpace : List String → String
    | [] => ""
    | [x] => x
    | x :: xs => x ++ " " ++ sepSpace xs

/-- `InterpolateEnvVars`: marshal the manifest (the `encoding/json`
marshaller and unmarshaller are external collaborators passed as
functions), substitute `${VAR}` placeholders from the process environment
`env`, and fail with one aggregate error when any variable is unset. -/
def InterpolateEnvVars {V : Type} (marshal : Manifest V → String)
    (unmarshal : String → Option (Manifest V)) (env : String → Option String)
    (m : Manifest V) : Except String (Manifest V) :=
  let r := interpolateString env (marshal m)
  if r.2.length > 0 then
    .error ("undefined environment variables: " ++ goFmtStrings r.2)
  else
    match unmarshal (String.mk r.1) with
    | some m' => .ok m'
    | none => .error "unmarshal error"

end Single

/-! ## Plural manifest shape (`pkg/manifest/types.go`, plural variant) -/

namespace Plural

/-- Per-environment override for a plural-shape source. -/
structure SourceOverride (V : Type) where
  Type' : String := ""
  Description : String := ""
  Config : Option (List (String × V)) := none
deriving DecidableEq

/-- Plural-shape `SourceConfig`: carries its own per-environment override
map `Env` (name → override). -/
structure SourceConfig (V : Type) where
  Name : String := ""
  Type' : String := ""
  Description : String := ""
  Config : Option (List (String × V)) := none
  Env : Option (List (String × SourceOverride V)) := none
deriving DecidableEq

structure DestinationOverride (V : Type) where
  URL : String := ""
  Type' : String := ""
  Description : String := ""
  AuthType : String := ""
  Auth : Option (List (String × V)) := none
  Config : Option (List (String × V)) := none
  RateLimit : Int := 0
  RateLimitPeriod : String := ""
deriving DecidableEq

structure DestinationConfig (V : Type) where
  Name : String := ""
  URL : String := ""
  Type' : String := ""
  Description : String := ""
  AuthType : String := ""
  Auth : Option (List (String × V)) := none
  Config : Option (List (String × V)) := none
  RateLimit : Int := 0
  RateLimitPeriod : String := ""
  Env : Option (List (String × DestinationOverride V)) := none
deriving DecidableEq

structure ConnectionConfig (V : Type) where
  Name : String := ""
  Source : String := ""
  Destination : String := ""
  Rules : Option (List (List (String × V))) := none
  Filter : Option (List (String × V)) := none
  Transformations : List String := []
deriving DecidableEq

structure TransformationOverride where
  Description : String := ""
  CodeFile : String := ""
  Env : Option (List (String × String)) := none
deriving DecidableEq

/-- Plural-shape `TransformationConfig`: `Env` is the env-var map,
`EnvOverrides` the per-environment override map. -/
structure TransformationConfig where
  Name : String := ""
  Description : String := ""
  CodeFile : String := ""
  Env : Option (List (String × String)) := none
  EnvOverrides : Option (List (String × TransformationOverride)) := none
deriving DecidableEq

/-- The plural-shape `Manifest`: lists of resources. -/
structure Manifest (V : Type) where
  Schema : String := ""
  Sources : List (SourceConfig V) := []
  Destinations : List (DestinationConfig V) := []
  Transformations : List TransformationConfig := []
  Connections : List (ConnectionConfig V) := []
deriving DecidableEq

/-- `ResolveSourceEnv` (`pkg/manifest/resolve.go`, plural variant): the Go
code rebuilds the struct without its `Env` field, then overlays the named
override when one exists; scalar fields override when non-empty, the
config map replaces when non-nil.  Total: no error path. -/
def ResolveSourceEnv {V : Type} (src : SourceConfig V) (envName : String) :
    SourceConfig V :=
  let result : SourceConfig V :=
    { Name := src.Name, Type' := src.Type', Description := src.Description,
      Config := src.Config }
  if envName = "" then result
  else
    match src.Env with
    | none => result
    | some envMap =>
      match GoMap.get? envMap envName with
      | none => result
      | some ov =>
        { result with
          Type' := if ov.Type' ≠ "" then ov.Type' else result.Type'
          Description := if ov.Description ≠ "" then ov.Description
                         else result.Description
          Config := if ov.Config.isSome then ov.Config else result.Config }

/-- `ResolveDestinationEnv`, same pattern as `ResolveSourceEnv`; the
`auth` and `config` maps replace wholesale when the override's map is
non-nil. -/
def ResolveDestinationEnv {V : Type} (dst : DestinationConfig V) (envName : String) :
    DestinationConfig V :=
  let result : DestinationConfig V :=
    { Name := dst.Name, URL := dst.URL, Type' := dst.Type',
      Description := dst.Description, AuthType := dst.AuthType, Auth := dst.Auth,
      Config := dst.Config, RateLimit := dst.RateLimit,
      RateLimitPeriod := dst.RateLimitPeriod }
  if envName = "" then result
  else
    match dst.Env with
    | none => result
    | some envMap =>
      match GoMap.get? envMap envName with
      | none => result
      | some ov =>
        { result with
          URL := if ov.URL ≠ "" then ov.URL else result.URL
          Type' := if ov.Type' ≠ "" then ov.Type' else result.Type'
          Description := if ov.Description ≠ "" then ov.Description
                         else result.Description
          AuthType := if ov.AuthType ≠ "" then ov.AuthType else result.AuthType
          Auth := if ov.Auth.isSome then ov.Auth else result.Auth
          Config := if ov.Config.isSome then ov.Config else result.Config
          RateLimit := if ov.RateLimit ≠ 0 then ov.RateLimit else result.RateLimit
          RateLimitPeriod := if ov.RateLimitPeriod ≠ "" then ov.RateLimitPeriod
                             else result.RateLimitPeriod }

/-- `ResolveTransformationEnv`: rebuilds the struct without
`EnvOverrides` (deep-copying `Env`, which is value-equal to reusing it),
then applies the named override; the override's env entries are written
into the result's env map key by key. -/
def ResolveTransformationEnv (tr : TransformationConfig) (envName : String) :
    TransformationConfig :=
  let result : TransformationConfig :=
    { Name := tr.Name, Description := tr.Description, CodeFile := tr.CodeFile,
      Env := tr.Env }
  if envName = "" then result
  else
    match tr.EnvOverrides with
    | none => result
    | some ovs =>
      match GoMap.get? ovs envName with
      | none => result
      | some ov =>
        { result with
          Description := if ov.Description ≠ "" then ov.Description
                         else result.Description
          CodeFile := if ov.CodeFile ≠ "" then ov.CodeFile else result.CodeFile
          Env := if ov.Env.isSome then
                   some (GoMap.copyInto (result.Env.getD []) (ov.Env.getD []))
                 else result.Env }

end Plural

/-! ## Multi-manifest registry (`pkg/project/registry.go`) -/

namespace Project

/-- The `Registry`: per-kind name→file maps (the `fileRef.FilePath` of the
first definition), the accumulated resource lists, resolved transformation
code files, and the collected collision errors. -/
structure Registry (V : Type) where
  Sources : List (String × String) := []
  Destinations : List (String × String) := []
  Transformations : List (String × String) := []
  Connections : List (String × String) := []
  SourceList : List (Plural.SourceConfig V) := []
  DestinationList : List (Plural.DestinationConfig V) := []
  TransformationList : List Plural.TransformationConfig := []
  ConnectionList : List (Plural.ConnectionConfig V) := []
  TransformationFiles : List (String × String) := []
  collisionErrors : List String := []
deriving DecidableEq

/-- `NewRegistry`: all maps and lists empty. -/
def NewRegistry {V : Type} : Registry V := {}

/-- The text of a duplicate-name collision error (Go quotes the name with
`%q`; quotes omitted, see the header). -/
def dupMsg (kind name f1 f2 : String) : String :=
  "duplicate " ++ kind ++ " " ++ name ++ ": defined in " ++ f1 ++ " and " ++ f2

/-- The text of a broken-reference error. -/
def refMsg (connName kind refName : String) : String :=
  "connection " ++ connName ++ " references undefined " ++ kind ++ " " ++ refName

/-- One iteration of `AddManifest`'s sources loop. -/
def registerSource {V : Type} (filePath : String) (r : Registry V)
    (s : Plural.SourceConfig V) : Registry V :=
  let r :=
    match GoMap.get? r.Sources s.Name with
    | some existing =>
      { r with collisionErrors :=
          r.collisionErrors ++ [dupMsg "source" s.Name existing filePath] }
    | none => { r with Sources := GoMap.set r.Sources s.Name filePath }
  { r with SourceList := r.SourceList ++ [s] }

/-- One iteration of `AddManifest`'s destinations loop. -/
def registerDestination {V : Type} (filePath : String) (r : Registry V)
    (d : Plural.DestinationConfig V) : Registry V :=
  let r :=
    match GoMap.get? r.Destinations d.Name with
    | some existing =>
      { r with collisionErrors :=
          r.collisionErrors ++ [dupMsg "destination" d.Name existing filePath] }
    | none => { r with Destinations := GoMap.set r.Destinations d.Name filePath }
  { r with DestinationList := r.DestinationList ++ [d] }

/-- One iteration of `AddManifest`'s transformations loop; `dirJoin`
models `filepath.Join(filepath.Dir(filePath), codeFile)` (an external
path collaborator). -/
def registerTransformation {V : Type} (dirJoin : String → String → String)
    (filePath : String) (r : Registry V) (tr : Plural.TransformationConfig) :
    Registry V :=
  let r :=
    match GoMap.get? r.Transformations tr.Name with
    | some existing =>
      { r with collisionErrors :=
          r.collisionErrors ++ [dupMsg "transformation" tr.Name existing filePath] }
    | none => { r with Transformations := GoMap.set r.Transformations tr.Name filePath }
  let r := { r with TransformationList := r.TransformationList ++ [tr] }
  if tr.CodeFile ≠ "" then
    { r with TransformationFiles :=
        GoMap.set r.TransformationFiles tr.Name (dirJoin filePath tr.CodeFile) }
  else r

/-- One iteration of `AddManifest`'s connections loop. -/
def registerConnection {V : Type} (filePath : String) (r : Registry V)
    (c : Plural.ConnectionConfig V) : Registry V :=
  let r :=
    match GoMap.get? r.Connections c.Name with
    | some existing =>
      { r with collisionErrors :=
          r.collisionErrors ++ [dupMsg "connection" c.Name existing filePath] }
    | none => { r with Connections := GoMap.set r.Connections c.Name filePath }
  { r with ConnectionList := r.ConnectionList ++ [c] }

/-- `AddManifest`: register the manifest's resources kind by kind,
collecting duplicate-name errors instead of failing. -/
def AddManifest {V : Type} (dirJoin : String → String → String) (filePath : String)
    (m : Plural.Manifest V) (r : Registry V) : Registry V :=
  let r := m.Sources.foldl (registerSource filePath) r
  let r := m.Destinations.foldl (registerDestination filePath) r
  let r := m.Transformations.foldl (registerTransformation dirJoin filePath) r
  m.Connections.foldl (registerConnection filePath) r

/-- The broken-reference errors `Validate` emits for one connection. -/
def connectionErrors {V : Type} (r : Registry V) (c : Plural.ConnectionConfig V) :
    List String :=
  (if c.Source ≠ "" ∧ (GoMap.get? r.Sources c.Source).isNone then
     [refMsg c.Name "source" c.Source]
   else [])
  ++ (if c.Destination ≠ "" ∧ (GoMap.get? r.Destinations c.Destination).isNone then
     [refMsg c.Name "destination" c.Destination]
   else [])
  ++ c.Transformations.foldl (fun acc tn =>
       acc ++ (if (GoMap.get? r.Transformations tn).isNone then
         [refMsg c.Name "transformation" tn]
       else [])) []

/-- `Validate`: all accumulated collision errors followed by every broken
reference of every registered connection — accumulation, never fail-fast. -/
def Validate {V : Type} (r : Registry V) : List String :=
  r.collisionErrors ++ r.ConnectionList.foldl (fun acc c => acc ++ connectionErrors r c) []

/-- Building a registry from a sequence of (file path, manifest) pairs. -/
def buildRegistry {V : Type} (dirJoin : String → String → String)
    (ms : List (String × Plural.Manifest V)) : Registry V :=
  ms.foldl (fun r fm => AddManifest dirJoin fm.1 fm.2 r) NewRegistry

end Project

/-! ## Remote resource details (`pkg/hookdeck`, drift-facing types) -/

namespace Hookdeck

structure SourceDetail where
  ID : String := ""
  Name : String := ""
  URL : String := ""
  Description : String := ""
deriving DecidableEq

/-- The nested `config` sub-object of a remote destination: the API returns
url, auth_type, auth, rate_limit, rate_limit_period inside it. -/
structure DestinationConfigDetail (V : Type) where
  URL : String := ""
  AuthType : String := ""
  Auth : Option (List (String × V)) := none
  RateLimit : Int := 0
  RateLimitPeriod : String := ""
deriving DecidableEq

structure DestinationDetail (V : Type) where
  ID : String := ""
  Name : String := ""
  Description : String := ""
  Type' : String := ""
  Config : DestinationConfigDetail V := {}
deriving DecidableEq

structure ConnectionDetail (V : Type) where
  ID : String := ""
  Name : String := ""
  FullName : String := ""
  Source : Option SourceDetail := none
  Destination : Option (DestinationDetail V) := none
  Rules : List (List (String × V)) := []
deriving DecidableEq

structure TransformationDetail where
  ID : String := ""
  Name : String := ""
  Code : String := ""
  Env : Option (List (String × String)) := none
deriving DecidableEq

end Hookdeck

/-! ## Drift comparator (`pkg/drift`) -/

namespace Drift

inductive DriftStatus
  | missing
  | drifted
  | inSync
deriving DecidableEq

structure FieldDiff where
  Field : String
  Local : String
  Remote : String
deriving DecidableEq

structure Diff where
  Kind : String
  Name : String
  Status : DriftStatus
  Fields : List FieldDiff := []
deriving DecidableEq

/-- The live remote resources, positionally aligned with the lcl lists; a
`none` entry means the resource was not found remotely. -/
structure RemoteState (V : Type) where
  Sources : List (Option Hookdeck.SourceDetail) := []
  Destinations : List (Option (Hookdeck.DestinationDetail V)) := []
  Connections : List (Option (Hookdeck.ConnectionDetail V)) := []
  Transformations : List (Option Hookdeck.TransformationDetail) := []

/-- `detectSource`: missing without a remote counterpart, else compare
name (always) and description (only when locally non-empty). -/
def detectSource {V : Type} (lcl : Plural.SourceConfig V)
    (remote : Option Hookdeck.SourceDetail) : Option Diff :=
  match remote with
  | none => some { Kind := "source", Name := lcl.Name, Status := .missing }
  | some r =>
    let fields :=
      (if lcl.Name ≠ r.Name then [⟨"name", lcl.Name, r.Name⟩] else [])
      ++ (if lcl.Description ≠ "" ∧ lcl.Description ≠ r.Description then
            [⟨"description", lcl.Description, r.Description⟩]
          else [])
    if fields.length > 0 then
      some { Kind := "source", Name := lcl.Name, Status := .drifted, Fields := fields }
    else none

/-- The field comparisons of `detectDestination`, against the remote's
nested config sub-object; each lcl field participates only when
non-empty / non-zero, and `rate_limit` is compared via `fmt.Sprint`. -/
def destinationFieldDiffs {V : Type} (lcl : Plural.DestinationConfig V)
    (cfg : Hookdeck.DestinationConfigDetail V) : List FieldDiff :=
  (if lcl.URL ≠ "" ∧ lcl.URL ≠ cfg.URL then
     [⟨"url", lcl.URL, cfg.URL⟩]
   else [])
  ++ (if lcl.AuthType ≠ "" ∧ lcl.AuthType ≠ cfg.AuthType then
     [⟨"auth_type", lcl.AuthType, cfg.AuthType⟩]
   else [])
  ++ (if lcl.RateLimit ≠ 0 ∧ lcl.RateLimit ≠ cfg.RateLimit then
     [⟨"rate_limit", toString lcl.RateLimit, toString cfg.RateLimit⟩]
   else [])
  ++ (if lcl.RateLimitPeriod ≠ "" ∧ lcl.RateLimitPeriod ≠ cfg.RateLimitPeriod then
     [⟨"rate_limit_period", lcl.RateLimitPeriod, cfg.RateLimitPeriod⟩]
   else [])

def detectDestination {V : Type} (lcl : Plural.DestinationConfig V)
    (remote : Option (Hookdeck.DestinationDetail V)) : Option Diff :=
  match remote with
  | none => some { Kind := "destination", Name := lcl.Name, Status := .missing }
  | some r =>
    let fields := destinationFieldDiffs lcl r.Config
    if fields.length > 0 then
      some { Kind := "destination", Name := lcl.Name, Status := .drifted,
             Fields := fields }
    else none

/-- `detectConnection`: drift is limited to existence checks (the empty
field list is kept to mirror the Go source). -/
def detectConnection {V : Type} (lcl : Plural.ConnectionConfig V)
    (remote : Option (Hookdeck.ConnectionDetail V)) : Option Diff :=
  match remote with
  | none => some { Kind := "connection", Name := lcl.Name, Status := .missing }
  | some _ =>
    let fields : List FieldDiff := []
    if fields.length > 0 then
      some { Kind := "connection", Name := lcl.Name, Status := .drifted,
             Fields := fields }
    else none

/-- `detectTransformation`: every locally-declared env key must match the
remote value; a key the remote lacks reads as the empty string (Go's map
zero value).  Local entries are visited in list order (Go map iteration
order is unspecified). -/
def detectTransformation (lcl : Plural.TransformationConfig)
    (remote : Option Hookdeck.TransformationDetail) : Option Diff :=
  match remote with
  | none => some { Kind := "transformation", Name := lcl.Name, Status := .missing }
  | some r =>
    let fields := (lcl.Env.getD []).foldl (fun acc e =>
      if GoMap.get? (r.Env.getD []) e.1 ≠ some e.2 then
        acc ++ [⟨"env." ++ e.1, e.2, (GoMap.get? (r.Env.getD []) e.1).getD ""⟩]
      else acc) []
    if fields.length > 0 then
      some { Kind := "transformation", Name := lcl.Name, Status := .drifted,
             Fields := fields }
    else none

/-- The field diffs carried by an optional diff (none carries none). -/
def diffFields : Option Diff → List FieldDiff
  | none => []
  | some d => d.Fields

/-- The `for i, x := range xs` loop of `Detect`: collect the non-nil diffs,
feeding each entry its index. -/
def detectLoop {α : Type} (f : α → Nat → Option Diff) : List α → Nat → List Diff
  | [], _ => []
  | x :: xs, i =>
    match f x i with
    | some d => d :: detectLoop f xs (i + 1)
    | none => detectLoop f xs (i + 1)

/-- `Detect`: compare each lcl resource with the positionally-aligned
remote entry (out-of-range indices read as not-found), in the kind order
sources, destinations, connections, transformations. -/
def Detect {V : Type} (sources : List (Plural.SourceConfig V))
    (destinations : List (Plural.DestinationConfig V))
    (transformations : List Plural.TransformationConfig)
    (connections : List (Plural.ConnectionConfig V))
    (remote : RemoteState V) : List Diff :=
  detectLoop (fun src i => detectSource src
    (if i < remote.Sources.length then remote.Sources.getD i none else none))
    sources 0
  ++ detectLoop (fun dst i => detectDestination dst
    (if i < remote.Destinations.length then remote.Destinations.getD i none else none))
    destinations 0
  ++ detectLoop (fun conn i => detectConnection conn
    (if i < remote.Connections.length then remote.Connections.getD i none else none))
    connections 0
  ++ detectLoop (fun tr i => detectTransformation tr
    (if i < remote.Transformations.length then remote.Transformations.getD i none
     else none))
    transformations 0

end Drift

/-! ## Concrete inputs used by witnesses and counterexamples -/

def c1Parent : Single.ConnectionConfig Nat :=
  { Name := "conn", Source := "src", Rules := some [[("type", 1)]],
    Transformations := ["parent-transform"] }

def c1Child : Single.ConnectionConfig Nat := { Rules := some [] }

def c1wChild : Single.ConnectionConfig Nat :=
  { Rules := some [[("type", 2)]], Filter := some [("path", 3)] }

def c2Parent : Single.TransformationConfig :=
  { Name := "t", Env := some [("API", "x")] }

def c2Child : Single.TransformationConfig :=
  { Env := some [("API", "y"), ("KEY", "z")] }

def c3FS : List (String × Single.Manifest Nat) :=
  [("a", { Extends := "b" }), ("b", { Extends := "a" })]

def c4M : Single.Manifest Nat :=
  { Profile := "default", Env := some [("staging", { Profile := "live" })] }

def c7Parent : Single.Manifest Nat := {}

def c7Child : Single.Manifest Nat :=
  { Transformation := some { Name := "t", EnvVars := some [("A", "x")] } }

def c7wParent : Single.Manifest Nat :=
  { Profile := "default",
    Destination := some { Name := "d", Auth := some [("user", 1)] } }

def c7wChild : Single.Manifest Nat :=
  { Profile := "prod", Destination := some { Auth := some [("pass", 2)] },
    Env := some [("staging", { Profile := "s" })] }

def c6Local : Plural.DestinationConfig Nat := { Name := "d", URL := "https://new" }

def c6Remote : Hookdeck.DestinationDetail Nat :=
  { Name := "d", Config := { URL := "https://old", RateLimit := 7 } }

def c8Src : Plural.SourceConfig Nat :=
  { Name := "s", Env := some [("staging", { Type' := "x" })] }

def c8Dst : Plural.DestinationConfig Nat :=
  { Name := "d", Env := some [("staging", { URL := "u" })] }

def c8Tr : Plural.TransformationConfig :=
  { Name := "t", Env := some [("K", "v")],
    EnvOverrides := some [("staging", { CodeFile := "x.js" })] }

def c9MS : List (String × Plural.Manifest Nat) :=
  [("f1", { Sources := [{ Name := "a" }], Destinations := [{ Name := "a" }] }),
   ("f2", { Sources := [{ Name := "a" }],
            Connections := [{ Name := "c", Source := "a",
                              Destination := "missing-dest" }] })]

def c10Src : Plural.SourceConfig Nat := { Name := "s1" }

/-- All source names declared across a manifest sequence, in order. -/
def sourceNames {V : Type} (ms : List (String × Plural.Manifest V)) : List String :=
  ms.flatMap (fun fm => fm.2.Sources.map (·.Name))

def destinationNames {V : Type} (ms : List (String × Plural.Manifest V)) : List String :=
  ms.flatMap (fun fm => fm.2.Destinations.map (·.Name))

def transformationNames {V : Type} (ms : List (String × Plural.Manifest V)) : List String :=
  ms.flatMap (fun fm => fm.2.Transformations.map (·.Name))

def connectionNames {V : Type} (ms : List (String × Plural.Manifest V)) : List String :=
  ms.flatMap (fun fm => fm.2.Connections.map (·.Name))

def c9OK : List (String × Plural.Manifest Nat) :=
  [("f1", { Sources := [{ Name := "a" }], Destinations := [{ Name := "a" }] })]

/-! ## Lemmas -/

namespace GoMap

@[simp] theorem keys_nil {V : Type} : keys ([] : List (String × V)) = [] := rfl

@[simp] theorem keys_cons {V : Type} (e : String × V) (rest : List (String × V)) :
    keys (e :: rest) = e.1 :: keys rest := rfl

@[simp] theorem keys_append {V : Type} (a b : List (String × V)) :
    keys (a ++ b) = keys a ++ keys b := by
  simp [keys]

theorem get?_set {V : Type} (m : List (String × V)) (k k' : String) (v : V) :
    get? (set m k v) k' = if k' = k then some v else get? m k' := by
  induction m with
  | nil =>
    by_cases h : k' = k
    · subst h; simp [set, get?]
    · simp [set, get?, h, show ¬ k = k' from fun hh => h hh.symm]
  | cons e rest ih =>
    by_cases he : e.1 = k
    · simp only [set, if_pos he, get?]
      by_cases h : k' = k
      · subst h; simp [he]
      · have h1 : ¬ e.1 = k' := fun hh => h (hh.symm.trans he)
        simp [h1, h]
    · simp only [set, if_neg he, get?]
      by_cases h : e.1 = k'
      · have hk : ¬ k' = k := fun hh => he (h.trans hh)
        simp [h, hk]
      · simp [h, ih]

theorem keys_set_of_mem {V : Type} (m : List (String × V)) (k : String) (v : V)
    (h : k ∈ keys m) : keys (set m k v) = keys m := by
  induction m with
  | nil => simp at h
  | cons e rest ih =>
    by_cases he : e.1 = k
    · simp [set, he]
    · rcases List.mem_cons.1 h with h1 | h1
      · exact absurd h1.symm he
      · simp [set, he, ih h1]

theorem set_of_not_mem {V : Type} (m : List (String × V)) (k : String) (v : V)
    (h : k ∉ keys m) : set m k v = m ++ [(k, v)] := by
  induction m with
  | nil => simp [set]
  | cons e rest ih =>
    have h1 : ¬ e.1 = k := fun hh => h (by simp [hh])
    have h2 : k ∉ keys rest := fun hh => h (by simp [hh])
    simp [set, h1, ih h2]

theorem keys_set {V : Type} (m : List (String × V)) (k : String) (v : V) :
    keys (set m k v) = if k ∈ keys m then keys m else keys m ++ [k] := by
  by_cases h : k ∈ keys m
  · simp [h, keys_set_of_mem m k v h]
  · simp [h, set_of_not_mem m k v h]

theorem get?_eq_none_of_not_mem {V : Type} (m : List (String × V)) (k : String)
    (h : k ∉ keys m) : get? m k = none := by
  induction m with
  | nil => simp [get?]
  | cons e rest ih =>
    have h1 : ¬ e.1 = k := fun hh => h (by simp [hh])
    have h2 : k ∉ keys rest := fun hh => h (by simp [hh])
    simp [get?, h1, ih h2]

theorem mem_keys_of_get?_eq_some {V : Type} {m : List (String × V)} {k : String} {v : V}
    (h : get? m k = some v) : k ∈ keys m := by
  by_contra hmem
  rw [get?_eq_none_of_not_mem m k hmem] at h
  exact Option.noConfusion h

/-- Rewriting a key to the value it already holds leaves the map unchanged. -/
theorem set_of_get?_eq_some {V : Type} {m : List (String × V)} {k : String} {v : V}
    (h : get? m k = some v) : set m k v = m := by
  induction m with
  | nil => simp [get?] at h
  | cons e rest ih =>
    by_cases he : e.1 = k
    · rw [get?, if_pos he] at h
      have hv : v = e.2 := (Option.some.inj h).symm
      subst hv
      rw [set, if_pos he]
    · rw [get?, if_neg he] at h
      simp [set, he, ih h]

theorem keysNodup_set {V : Type} {m : List (String × V)} (k : String) (v : V)
    (h : (keys m).Nodup) : (keys (set m k v)).Nodup := by
  rw [keys_set]
  by_cases hk : k ∈ keys m
  · simpa [hk]
  · simp [hk, List.nodup_append, h]

theorem mem_keys_set {V : Type} (m : List (String × V)) (k k' : String) (v : V) :
    k' ∈ keys (set m k v) ↔ k' ∈ keys m ∨ k' = k := by
  rw [keys_set]
  by_cases h : k ∈ keys m
  · simp only [if_pos h]
    constructor
    · exact Or.inl
    · rintro (h1 | h1)
      · exact h1
      · exact h1 ▸ h
  · simp [if_neg h]

@[simp] theorem copyInto_nil {V : Type} (d : List (String × V)) : copyInto d [] = d := rfl

theorem copyInto_cons {V : Type} (d : List (String × V)) (e : String × V)
    (s : List (String × V)) : copyInto d (e :: s) = copyInto (set d e.1 e.2) s := rfl

theorem mem_keys_copyInto {V : Type} (s : List (String × V)) (k : String) :
    ∀ d, (k ∈ keys (copyInto d s) ↔ k ∈ keys d ∨ k ∈ keys s) := by
  induction s with
  | nil => intro d; simp
  | cons e s ih =>
    intro d
    rw [copyInto_cons, ih, mem_keys_set]
    constructor
    · rintro ((h | h) | h)
      · exact Or.inl h
      · exact Or.inr (by simp [h])
      · exact Or.inr (by simp [h])
    · rintro (h | h)
      · exact Or.inl (Or.inl h)
      · rcases List.mem_cons.1 h with h1 | h1
        · exact Or.inl (Or.inr h1)
        · exact Or.inr h1

theorem keysNodup_copyInto {V : Type} (s : List (String × V)) :
    ∀ {d : List (String × V)}, (keys d).Nodup → (keys (copyInto d s)).Nodup := by
  induction s with
  | nil => intro d h; simpa
  | cons e s ih =>
    intro d h
    rw [copyInto_cons]
    exact ih (keysNodup_set e.1 e.2 h)

theorem get?_copyInto_of_not_mem {V : Type} (s : List (String × V)) (k : String)
    (h : k ∉ keys s) : ∀ d, get? (copyInto d s) k = get? d k := by
  induction s with
  | nil => intro d; rfl
  | cons e s ih =>
    intro d
    have h1 : ¬ k = e.1 := fun hh => h (by simp [hh])
    have h2 : k ∉ keys s := fun hh => h (by simp [hh])
    rw [copyInto_cons, ih h2, get?_set, if_neg h1]

theorem copyInto_of_disjoint {V : Type} (s : List (String × V)) :
    ∀ d, (keys s).Nodup → (∀ k ∈ keys s, k ∉ keys d) → copyInto d s = d ++ s := by
  induction s with
  | nil => intro d _ _; simp
  | cons e s ih =>
    intro d hnd hdisj
    rw [copyInto_cons, set_of_not_mem d e.1 e.2 (hdisj e.1 (by simp))]
    rw [ih (d ++ [(e.1, e.2)]) (by simpa using hnd.of_cons)]
    · simp
    · intro k hk
      simp only [keys_append, List.mem_append]
      rintro (h1 | h1)
      · exact hdisj k (by simp [hk]) h1
      · have : k = e.1 := by simpa using h1
        exact (List.nodup_cons.1 (by simpa using hnd)).1 (this ▸ hk)

/-- Rebuilding a uniquely-keyed map entry by entry into an empty map (Go's
`make` + copy loop) reproduces it. -/
theorem copyInto_nil_left {V : Type} (m : List (String × V)) (h : (keys m).Nodup) :
    copyInto [] m = m := by
  simpa using copyInto_of_disjoint m [] h (by simp)

/-- Overriding a map twice with the same uniquely-keyed entry list is the
same as overriding it once. -/
theorem copyInto_copyInto_self {V : Type} (c : List (String × V)) (h : (keys c).Nodup) :
    ∀ d, copyInto (copyInto d c) c = copyInto d c := by
  induction c with
  | nil => intro d; simp
  | cons e c ih =>
    intro d
    have he : e.1 ∉ keys c := (List.nodup_cons.1 (by simpa using h)).1
    have hnd : (keys c).Nodup := (List.nodup_cons.1 (by simpa using h)).2
    rw [copyInto_cons, copyInto_cons]
    have hq : get? (copyInto (set d e.1 e.2) c) e.1 = some e.2 := by
      rw [get?_copyInto_of_not_mem c e.1 he, get?_set, if_pos rfl]
    rw [set_of_get?_eq_some hq]
    exact ih hnd (set d e.1 e.2)

theorem get?_copyInto_of_some {V : Type} (s : List (String × V)) (k : String) (v : V)
    (hnd : (keys s).Nodup) (h : get? s k = some v) :
    ∀ d, get? (copyInto d s) k = some v := by
  induction s with
  | nil => simp [get?] at h
  | cons e s ih =>
    intro d
    have hnd' : (keys s).Nodup := (List.nodup_cons.1 (by simpa using hnd)).2
    by_cases he : e.1 = k
    · rw [get?, if_pos he] at h
      have hk : k ∉ keys s := by
        have := (List.nodup_cons.1 (by simpa using hnd)).1
        exact fun hh => this (he ▸ hh)
      rw [copyInto_cons, get?_copyInto_of_not_mem s k hk, get?_set, if_pos he.symm]
      exact h
    · rw [get?, if_neg he] at h
      rw [copyInto_cons]
      exact ih hnd' h (set d e.1 e.2)

theorem get?_of_mem_of_nodup {V : Type} {m : List (String × V)} {k : String} {v : V}
    (hm : (k, v) ∈ m) (h : (keys m).Nodup) : get? m k = some v := by
  induction m with
  | nil => simp at hm
  | cons e rest ih =>
    have hhead : e.1 ∉ keys rest := (List.nodup_cons.1 (by simpa using h)).1
    have htail : (keys rest).Nodup := (List.nodup_cons.1 (by simpa using h)).2
    rcases List.mem_cons.1 hm with h1 | h1
    · rw [get?, if_pos (by rw [← h1]), ← h1]
    · have hk : k ∈ keys rest := by
        simpa [keys] using List.mem_map_of_mem (fun x => x.1) h1
      have hne : ¬ e.1 = k := fun hh => hhead (by rw [hh]; exact hk)
      rw [get?, if_neg hne, ih h1 htail]

theorem get?_copyInto_of_none {V : Type} (s : List (String × V)) (k : String)
    (h : get? s k = none) : ∀ d, get? (copyInto d s) k = get? d k := by
  induction s with
  | nil => intro d; rfl
  | cons e s ih =>
    intro d
    by_cases he : e.1 = k
    · rw [get?, if_pos he] at h
      exact Option.noConfusion h
    · rw [get?, if_neg he] at h
      rw [copyInto_cons, ih h, get?_set, if_neg (fun hh => he hh.symm)]

end GoMap

namespace Single

/-! ### Idempotence of the merge engine -/

/-- Applying the same "override if set" choice twice collapses. -/
theorem ite_override_idem {α : Type} (cond : Prop) [Decidable cond] (a b : α) :
    (if cond then b else if cond then b else a) = if cond then b else a := by
  by_cases h : cond <;> simp [h]

theorem mergeMapStringInterface_none_right {V : Type} (o : Option (List (String × V))) :
    mergeMapStringInterface o none = o := by
  cases o <;> rfl

theorem mergeMapStringInterface_self {V : Type} (o : Option (List (String × V)))
    (h : optNodup o) : mergeMapStringInterface o o = o := by
  cases o with
  | none => rfl
  | some m =>
    have h' : (GoMap.keys m).Nodup := h
    simp only [mergeMapStringInterface, Option.some.injEq]
    rw [GoMap.copyInto_copyInto_self m h', GoMap.copyInto_nil_left m h']

theorem mergeMapStringInterface_idem {V : Type} (po co : Option (List (String × V)))
    (h : optNodup co) :
    mergeMapStringInterface (mergeMapStringInterface po co) co =
      mergeMapStringInterface po co := by
  cases co with
  | none => simp [mergeMapStringInterface_none_right]
  | some cc =>
    have h' : (GoMap.keys cc).Nodup := h
    cases po with
    | none => exact mergeMapStringInterface_self (some cc) h
    | some pp =>
      simp only [mergeMapStringInterface, Option.some.injEq]
      have hq : (GoMap.keys (GoMap.copyInto (GoMap.copyInto [] pp) cc)).Nodup :=
        GoMap.keysNodup_copyInto cc (GoMap.keysNodup_copyInto pp (by simp))
      rw [GoMap.copyInto_nil_left _ hq, GoMap.copyInto_copyInto_self cc h']

/-- The shallow-merged map field pattern, applied twice. -/
theorem msi_field_idem {V : Type} (pc cc : Option (List (String × V))) (h : optNodup cc) :
    (if cc.isSome then
        mergeMapStringInterface
          (if cc.isSome then mergeMapStringInterface pc cc else pc) cc
      else if cc.isSome then mergeMapStringInterface pc cc else pc) =
      if cc.isSome then mergeMapStringInterface pc cc else pc := by
  cases cc with
  | none => simp
  | some m => simpa using mergeMapStringInterface_idem pc (some m) h

theorem mergeSource_idem {V : Type} (po : Option (SourceConfig V)) (c : SourceConfig V)
    (h : wfSource c) :
    mergeSource (mergeSource po (some c)) (some c) = mergeSource po (some c) := by
  cases po with
  | none =>
    show mergeSource (some c) (some c) = some c
    obtain ⟨n, t, d, cfg⟩ := c
    have hcfg : (if cfg.isSome then mergeMapStringInterface cfg cfg else cfg) = cfg := by
      cases cfg with
      | none => simp
      | some m => simpa using mergeMapStringInterface_self (some m) h
    simp [mergeSource, hcfg]
  | some p =>
    simp only [mergeSource, Option.some.injEq, SourceConfig.mk.injEq]
    exact ⟨ite_override_idem _ _ _, ite_override_idem _ _ _, ite_override_idem _ _ _,
      msi_field_idem p.Config c.Config h⟩

theorem mergeSource_idemO {V : Type} (po co : Option (SourceConfig V))
    (h : wfSourceOpt co) :
    mergeSource (mergeSource po co) co = mergeSource po co := by
  cases co with
  | none => cases po <;> rfl
  | some c => exact mergeSource_idem po c h

theorem mergeDestination_idem {V : Type} (po : Option (DestinationConfig V))
    (c : DestinationConfig V) (h : wfDestination c) :
    mergeDestination (mergeDestination po (some c)) (some c) =
      mergeDestination po (some c) := by
  cases po with
  | none =>
    show mergeDestination (some c) (some c) = some c
    obtain ⟨n, u, t, d, at', au, cfg, rl, rlp⟩ := c
    obtain ⟨hau, hcfg⟩ := h
    have h1 : (if au.isSome then mergeMapStringInterface au au else au) = au := by
      cases au with
      | none => simp
      | some m => simpa using mergeMapStringInterface_self (some m) hau
    have h2 : (if cfg.isSome then mergeMapStringInterface cfg cfg else cfg) = cfg := by
      cases cfg with
      | none => simp
      | some m => simpa using mergeMapStringInterface_self (some m) hcfg
    simp [mergeDestination, h1, h2]
  | some p =>
    simp only [mergeDestination, Option.some.injEq, DestinationConfig.mk.injEq]
    exact ⟨ite_override_idem _ _ _, ite_override_idem _ _ _, ite_override_idem _ _ _,
      ite_override_idem _ _ _, ite_override_idem _ _ _,
      msi_field_idem p.Auth c.Auth h.1, msi_field_idem p.Config c.Config h.2,
      ite_override_idem _ _ _, ite_override_idem _ _ _⟩

theorem mergeDestination_idemO {V : Type} (po co : Option (DestinationConfig V))
    (h : wfDestinationOpt co) :
    mergeDestination (mergeDestination po co) co = mergeDestination po co := by
  cases co with
  | none => cases po <;> rfl
  | some c => exact mergeDestination_idem po c h

theorem mergeConnection_idem {V : Type} (po : Option (ConnectionConfig V))
    (c : ConnectionConfig V) :
    mergeConnection (mergeConnection po (some c)) (some c) =
      mergeConnection po (some c) := by
  cases po with
  | none =>
    show mergeConnection (some c) (some c) = some c
    obtain ⟨n, s, d, r, f, t⟩ := c
    have hr : (if r.isSome then r else r) = r := by simp
    have hf : (if f.isSome then f else f) = f := by simp
    have ht : (if t.length > 0 then t else t) = t := by simp
    simp [mergeConnection]
  | some p =>
    simp only [mergeConnection, Option.some.injEq, ConnectionConfig.mk.injEq]
    exact ⟨ite_override_idem _ _ _, ite_override_idem _ _ _, ite_override_idem _ _ _,
      ite_override_idem _ _ _, ite_override_idem _ _ _, ite_override_idem _ _ _⟩

theorem mergeConnection_idemO {V : Type} (po co : Option (ConnectionConfig V)) :
    mergeConnection (mergeConnection po co) co = mergeConnection po co := by
  cases co with
  | none => cases po <;> rfl
  | some c => exact mergeConnection_idem po c

/-- The transformation env-map merge pattern, applied twice. -/
theorem transEnv_field_idem (pe ce : Option (List (String × String)))
    (h : optNodup ce) :
    (if ce.isSome then
        some (GoMap.copyInto
          (GoMap.copyInto []
            ((if ce.isSome then
                some (GoMap.copyInto (GoMap.copyInto [] (pe.getD [])) (ce.getD []))
              else pe).getD []))
          (ce.getD []))
      else if ce.isSome then
        some (GoMap.copyInto (GoMap.copyInto [] (pe.getD [])) (ce.getD []))
      else pe) =
      if ce.isSome then
        some (GoMap.copyInto (GoMap.copyInto [] (pe.getD [])) (ce.getD []))
      else pe := by
  cases ce with
  | none => simp
  | some cc =>
    have h' : (GoMap.keys cc).Nodup := h
    have hq : (GoMap.keys (GoMap.copyInto (GoMap.copyInto [] (pe.getD [])) cc)).Nodup :=
      GoMap.keysNodup_copyInto cc (GoMap.keysNodup_copyInto (pe.getD []) (by simp))
    simp only [Option.isSome_some, if_pos, Option.getD_some, Option.some.injEq]
    rw [GoMap.copyInto_nil_left _ hq, GoMap.copyInto_copyInto_self cc h']

theorem mergeTransformation_idem (po : Option TransformationConfig)
    (c : TransformationConfig) (h : wfTransformation c) :
    mergeTransformation (mergeTransformation po (some c)) (some c) =
      mergeTransformation po (some c) := by
  cases po with
  | none =>
    show mergeTransformation (some c) (some c) = some c
    obtain ⟨n, d, cf, e, ev⟩ := c
    obtain ⟨he, hev⟩ := h
    subst hev
    have h1 : (if e.isSome then
        some (GoMap.copyInto (GoMap.copyInto [] (e.getD [])) (e.getD []))
      else e) = e := by
      cases e with
      | none => simp
      | some m =>
        have h' : (GoMap.keys m).Nodup := he
        simp only [Option.isSome_some, if_pos, Option.getD_some, Option.some.injEq]
        rw [GoMap.copyInto_copyInto_self m h', GoMap.copyInto_nil_left m h']
    simp [mergeTransformation, h1]
  | some p =>
    simp only [mergeTransformation, Option.some.injEq, TransformationConfig.mk.injEq]
    refine ⟨ite_override_idem _ _ _, ite_override_idem _ _ _, ite_override_idem _ _ _,
      ?_, trivial⟩
    exact transEnv_field_idem p.Env c.Env h.1

theorem mergeTransformation_idemO (po co : Option TransformationConfig)
    (h : wfTransformationOpt co) :
    mergeTransformation (mergeTransformation po co) co = mergeTransformation po co := by
  cases co with
  | none => cases po <;> rfl
  | some c => exact mergeTransformation_idem po c h

theorem mergeSource_selfO {V : Type} (o : Option (SourceConfig V)) (h : wfSourceOpt o) :
    mergeSource o o = o := by
  cases o with
  | none => rfl
  | some c => exact mergeSource_idem none c h

theorem mergeDestination_selfO {V : Type} (o : Option (DestinationConfig V))
    (h : wfDestinationOpt o) : mergeDestination o o = o := by
  cases o with
  | none => rfl
  | some c => exact mergeDestination_idem none c h

theorem mergeConnection_selfO {V : Type} (o : Option (ConnectionConfig V)) :
    mergeConnection o o = o := by
  cases o with
  | none => rfl
  | some c => exact mergeConnection_idem none c

theorem mergeTransformation_selfO (o : Option TransformationConfig)
    (h : wfTransformationOpt o) : mergeTransformation o o = o := by
  cases o with
  | none => rfl
  | some c => exact mergeTransformation_idem none c h

theorem mergeEnvOverride_idem {V : Type} (ex ov : EnvOverride V) (h : wfOverride ov) :
    mergeEnvOverride (mergeEnvOverride ex ov) ov = mergeEnvOverride ex ov := by
  obtain ⟨hs, hd, ht⟩ := h
  simp only [mergeEnvOverride, EnvOverride.mk.injEq]
  exact ⟨ite_override_idem _ _ _, mergeSource_idemO _ _ hs, mergeDestination_idemO _ _ hd,
    mergeConnection_idemO _ _, mergeTransformation_idemO _ _ ht⟩

theorem mergeEnvOverride_self {V : Type} (ov : EnvOverride V) (h : wfOverride ov) :
    mergeEnvOverride ov ov = ov := by
  obtain ⟨hs, hd, ht⟩ := h
  obtain ⟨pr, s, d, cn, t⟩ := ov
  simp only [mergeEnvOverride, EnvOverride.mk.injEq]
  exact ⟨by simp, mergeSource_selfO s hs, mergeDestination_selfO d hd,
    mergeConnection_selfO cn, mergeTransformation_selfO t ht⟩

/-- The value `mergeEnvMap`'s loop writes for one child entry. -/
def envMapVal {V : Type} (acc : List (String × EnvOverride V)) (e : String × EnvOverride V) :
    EnvOverride V :=
  match GoMap.get? acc e.1 with
  | some existing => mergeEnvOverride existing e.2
  | none => e.2

theorem envMapStep_eq {V : Type} (acc : List (String × EnvOverride V))
    (e : String × EnvOverride V) :
    envMapStep acc e = GoMap.set acc e.1 (envMapVal acc e) := by
  unfold envMapStep envMapVal
  cases GoMap.get? acc e.1 <;> rfl

theorem keysNodup_envMapFold {V : Type} (c : List (String × EnvOverride V)) :
    ∀ {acc : List (String × EnvOverride V)}, (GoMap.keys acc).Nodup →
      (GoMap.keys (c.foldl envMapStep acc)).Nodup := by
  induction c with
  | nil => intro acc h; simpa
  | cons e c ih =>
    intro acc h
    rw [List.foldl_cons]
    exact ih (by rw [envMapStep_eq]; exact GoMap.keysNodup_set _ _ h)

theorem get?_envMapFold_of_not_mem {V : Type} (c : List (String × EnvOverride V))
    (k : String) (h : k ∉ GoMap.keys c) :
    ∀ acc, GoMap.get? (c.foldl envMapStep acc) k = GoMap.get? acc k := by
  induction c with
  | nil => intro acc; rfl
  | cons e c ih =>
    intro acc
    have h1 : ¬ k = e.1 := fun hh => h (by simp [hh])
    have h2 : k ∉ GoMap.keys c := fun hh => h (by simp [hh])
    rw [List.foldl_cons, ih h2, envMapStep_eq, GoMap.get?_set, if_neg h1]

/-- A generic fold fixed-point helper. -/
theorem foldl_fixed {α β : Type} (f : α → β → α) :
    ∀ (l : List β) (acc : α), (∀ e ∈ l, f acc e = acc) → l.foldl f acc = acc := by
  intro l
  induction l with
  | nil => intro acc _; rfl
  | cons e l ih =>
    intro acc h
    rw [List.foldl_cons, h e (by simp)]
    exact ih acc (fun e' he' => h e' (by simp [he']))

theorem envMapFold_self {V : Type} (cm : List (String × EnvOverride V))
    (h1 : (GoMap.keys cm).Nodup) (h2 : ∀ e ∈ cm, wfOverride e.2) :
    cm.foldl envMapStep cm = cm := by
  apply foldl_fixed
  intro e he
  rw [envMapStep_eq]
  have hv : GoMap.get? cm e.1 = some e.2 := GoMap.get?_of_mem_of_nodup (by simpa using he) h1
  have : envMapVal cm e = e.2 := by
    unfold envMapVal
    rw [hv]
    exact mergeEnvOverride_self e.2 (h2 e he)
  rw [this]
  exact GoMap.set_of_get?_eq_some hv

theorem envMapFold_idem {V : Type} (cm : List (String × EnvOverride V))
    (h1 : (GoMap.keys cm).Nodup) (h2 : ∀ e ∈ cm, wfOverride e.2) :
    ∀ base, cm.foldl envMapStep (cm.foldl envMapStep base) = cm.foldl envMapStep base := by
  induction cm with
  | nil => intro base; rfl
  | cons e cm ih =>
    intro base
    have hhead : e.1 ∉ GoMap.keys cm := (List.nodup_cons.1 (by simpa using h1)).1
    have htail : (GoMap.keys cm).Nodup := (List.nodup_cons.1 (by simpa using h1)).2
    have hwf : wfOverride e.2 := h2 e (by simp)
    have hwf' : ∀ e' ∈ cm, wfOverride e'.2 := fun e' he' => h2 e' (by simp [he'])
    simp only [List.foldl_cons]
    have hval : GoMap.get? (cm.foldl envMapStep (envMapStep base e)) e.1 =
        some (envMapVal base e) := by
      rw [get?_envMapFold_of_not_mem cm e.1 hhead, envMapStep_eq, GoMap.get?_set,
        if_pos rfl]
    have hmw : mergeEnvOverride (envMapVal base e) e.2 = envMapVal base e := by
      unfold envMapVal
      cases hb : GoMap.get? base e.1 with
      | none => exact mergeEnvOverride_self e.2 hwf
      | some ex => exact mergeEnvOverride_idem ex e.2 hwf
    have hstep : envMapStep (cm.foldl envMapStep (envMapStep base e)) e =
        cm.foldl envMapStep (envMapStep base e) := by
      rw [envMapStep_eq]
      have : envMapVal (cm.foldl envMapStep (envMapStep base e)) e = envMapVal base e := by
        unfold envMapVal
        rw [show GoMap.get? (cm.foldl envMapStep (envMapStep base e)) e.1 =
          some (envMapVal base e) from hval]
        unfold envMapVal
        cases hb : GoMap.get? base e.1 with
        | none => exact mergeEnvOverride_self e.2 hwf
        | some ex => exact mergeEnvOverride_idem ex e.2 hwf
      rw [this]
      exact GoMap.set_of_get?_eq_some hval
    rw [hstep]
    exact ih htail hwf' (envMapStep base e)

theorem mergeEnvMap_idemO {V : Type} (po co : Option (List (String × EnvOverride V)))
    (h1 : optNodup co) (h2 : ∀ e ∈ co.getD [], wfOverride e.2) :
    mergeEnvMap (mergeEnvMap po co) co = mergeEnvMap po co := by
  cases co with
  | none => cases po <;> rfl
  | some cm =>
    have h1' : (GoMap.keys cm).Nodup := h1
    have h2' : ∀ e ∈ cm, wfOverride e.2 := fun e he => h2 e (by simpa using he)
    cases po with
    | none =>
      show mergeEnvMap (some cm) (some cm) = some cm
      simp only [mergeEnvMap, Option.some.injEq]
      rw [GoMap.copyInto_nil_left cm h1']
      exact envMapFold_self cm h1' h2'
    | some pm =>
      simp only [mergeEnvMap, Option.some.injEq]
      have hnd : (GoMap.keys (cm.foldl envMapStep (GoMap.copyInto [] pm))).Nodup :=
        keysNodup_envMapFold cm (GoMap.keysNodup_copyInto pm (by simp))
      rw [GoMap.copyInto_nil_left _ hnd]
      exact envMapFold_idem cm h1' h2' (GoMap.copyInto [] pm)

theorem mergeEnvMap_selfO {V : Type} (o : Option (List (String × EnvOverride V)))
    (h1 : optNodup o) (h2 : ∀ e ∈ o.getD [], wfOverride e.2) :
    mergeEnvMap o o = o := by
  cases o with
  | none => rfl
  | some cm =>
    have h1' : (GoMap.keys cm).Nodup := h1
    simp only [mergeEnvMap, Option.some.injEq]
    rw [GoMap.copyInto_nil_left cm h1']
    exact envMapFold_self cm h1' (fun e he => h2 e (by simpa using he))

theorem mergeManifests_idem {V : Type} (po : Option (Manifest V)) (c : Manifest V)
    (h : wfManifest c) :
    mergeManifests (mergeManifests po (some c)) (some c) = mergeManifests po (some c) := by
  obtain ⟨hex, hs, hd, ht, he1, he2⟩ := h
  cases po with
  | none =>
    show mergeManifests (some c) (some c) = some c
    obtain ⟨sch, ver, ext, prof, s, d, cn, t, env⟩ := c
    simp only at hex hs hd ht he1 he2
    subst hex
    simp only [mergeManifests, mergeManifestsCore, Option.some.injEq, Manifest.mk.injEq]
    exact ⟨by simp, by simp, trivial, by simp, mergeSource_selfO s hs,
      mergeDestination_selfO d hd, mergeConnection_selfO cn,
      mergeTransformation_selfO t ht, mergeEnvMap_selfO env he1 he2⟩
  | some p =>
    simp only [mergeManifests, mergeManifestsCore, Option.some.injEq, Manifest.mk.injEq]
    exact ⟨ite_override_idem _ _ _, ite_override_idem _ _ _, trivial, ite_override_idem _ _ _,
      mergeSource_idemO _ _ hs, mergeDestination_idemO _ _ hd, mergeConnection_idemO _ _,
      mergeTransformation_idemO _ _ ht, mergeEnvMap_idemO _ _ he1 he2⟩

/-- The missing-variable list reported by the scanner is exactly the unset
subset of all placeholders, in scan order: scanning never short-circuits. -/
theorem interpAux_missing (env : String → Option String) :
    ∀ (fuel : Nat) (cs : List Char),
      (interpAux env fuel cs).2 =
        (extractAux fuel cs).filter (fun v => (env v).isNone) := by
  intro fuel
  induction fuel with
  | zero => intro cs; rfl
  | succ fuel ih =>
    intro cs
    cases cs with
    | nil => rfl
    | cons c cs =>
      simp only [interpAux, extractAux]
      by_cases h : c = '$' ∧ cs.head? = some '{'
      · rw [if_pos h, if_pos h]
        cases hsb : splitBrace cs.tail with
        | none => simpa using ih cs
        | some p =>
          obtain ⟨name, rest'⟩ := p
          cases he : env (String.mk name) with
          | some v => simp [he, ih rest']
          | none => simp [he, ih rest']
      · rw [if_neg h, if_neg h]
        simpa using ih cs

end Single

/-! ## Claims -/

/-- **C1**, counterexample.  The claim says that when the child's rules
list is not non-empty the parent's rules are kept; but the Go guard is
`child.Rules != nil`, so a present-but-empty child rules slice (JSON
`"rules": []`) replaces the parent's non-empty rules. -/
theorem c1_counterexample :
    c1Child.Rules = some [] ∧
    (Single.mergeConnection (some c1Parent) (some c1Child)).map
        Single.ConnectionConfig.Rules ≠ some c1Parent.Rules := by
  decide

/-- **C1** (amended).  Connection merge replace semantics: the child's
`rules` slice replaces the parent's whenever it is present (non-nil), even
when empty, and the parent's is kept when it is nil; the child's
`transformations` list replaces the parent's exactly when non-empty; the
child's `filter` map, when present, replaces the parent's wholesale; a
replaced value equals the child's exactly — never concatenated,
deduplicated, or merged key-by-key. -/
theorem c1_replace_semantics {V : Type} (p c : Single.ConnectionConfig V) :
    ∃ r, Single.mergeConnection (some p) (some c) = some r ∧
      (∀ cr, c.Rules = some cr → r.Rules = some cr) ∧
      (c.Rules = none → r.Rules = p.Rules) ∧
      (∀ cf, c.Filter = some cf → r.Filter = some cf) ∧
      (c.Filter = none → r.Filter = p.Filter) ∧
      (c.Transformations ≠ [] → r.Transformations = c.Transformations) ∧
      (c.Transformations = [] → r.Transformations = p.Transformations) := by
  refine ⟨_, rfl, ?_, ?_, ?_, ?_, ?_, ?_⟩
  · intro cr hcr
    simp [hcr]
  · intro hcr
    simp [hcr]
  · intro cf hcf
    simp [hcf]
  · intro hcf
    simp [hcf]
  · intro ht
    have : c.Transformations.length > 0 := List.length_pos.2 ht
    simp [this]
  · intro ht
    simp [ht]

/-- **C1** witness: a present non-empty child rules list and a present
filter replace the parent's values exactly. -/
theorem c1_replace_semantics_witness :
    ∃ r, Single.mergeConnection (some c1Parent) (some c1wChild) = some r ∧
      r.Rules = some [[("type", 2)]] ∧ r.Filter = some [("path", 3)] ∧
      r.Transformations = ["parent-transform"] := by
  obtain ⟨r, hr, h1, _, h3, _, _, h6⟩ := c1_replace_semantics c1Parent c1wChild
  exact ⟨r, hr, h1 _ rfl, h3 _ rfl, h6 rfl⟩

/-- **C2**.  Transformation merge with the child's env map present is a
key-wise union: for every key, the merged env yields the child's value
when the child binds the key, else the parent's value — a true merge, so
parent-only keys are preserved and the child wins on conflicts. -/
theorem c2_transformation_env_merge (p c : Single.TransformationConfig)
    (ce : List (String × String)) (hc : c.Env = some ce)
    (hp : Single.optNodup p.Env) (hn : (GoMap.keys ce).Nodup) (k : String) :
    ∃ r, Single.mergeTransformation (some p) (some c) = some r ∧
      ∃ re, r.Env = some re ∧
        GoMap.get? re k =
          (match GoMap.get? ce k with
           | some v => some v
           | none => GoMap.get? (p.Env.getD []) k) := by
  refine ⟨_, rfl, ?_⟩
  refine ⟨GoMap.copyInto (GoMap.copyInto [] (p.Env.getD [])) ce, by rw [hc]; rfl, ?_⟩
  cases hk : GoMap.get? ce k with
  | some v => rw [GoMap.get?_copyInto_of_some ce k v hn hk]
  | none =>
    rw [GoMap.get?_copyInto_of_none ce k hk,
      GoMap.copyInto_nil_left (p.Env.getD []) hp]

/-- **C2** witness: `merge({API:x}, {API:y,KEY:z})` yields `API = y`. -/
theorem c2_transformation_env_merge_witness :
    ∃ r, Single.mergeTransformation (some c2Parent) (some c2Child) = some r ∧
      ∃ re, r.Env = some re ∧ GoMap.get? re "API" = some "y" := by
  obtain ⟨r, hr, re, hre, hget⟩ :=
    c2_transformation_env_merge c2Parent c2Child _ rfl (by decide) (by decide) "API"
  exact ⟨r, hr, re, hre, by rw [hget]; decide⟩

/-- **C7**, counterexample.  Merge is not override-idempotent in general:
merge itself normalizes (it rebuilds the merged transformation without the
deprecated `EnvVars` alias, and clears `Extends`), so when the first merge
passes a child component through a nil-parent guard verbatim, the second
merge changes it.  Here both manifests are present and the child is
non-empty, yet merging the child twice drops its transformation's
`EnvVars`. -/
theorem c7_counterexample :
    Single.mergeManifests (Single.mergeManifests (some c7Parent) (some c7Child))
        (some c7Child) ≠
      Single.mergeManifests (some c7Parent) (some c7Child) := by
  decide

/-- **C7** (amended).  Merge is override-idempotent for every parent
(present or nil) and non-empty child of each configuration record type,
provided the child's free-form maps are uniquely keyed and the child is in
load-normalized form (deprecated transformation `env_vars` alias nil; for
the whole-manifest merge, `extends` already cleared): merging the same
child twice equals merging it once — never cumulative for scalars,
shallow-merged maps, or replace-lists.  Without normalization the second
merge can differ, because merge clears `extends` and the alias. -/
theorem c7_merge_idem {V : Type} :
    (∀ (po : Option (Single.SourceConfig V)) (c : Single.SourceConfig V),
      Single.wfSource c →
        Single.mergeSource (Single.mergeSource po (some c)) (some c) =
          Single.mergeSource po (some c)) ∧
    (∀ (po : Option (Single.DestinationConfig V)) (c : Single.DestinationConfig V),
      Single.wfDestination c →
        Single.mergeDestination (Single.mergeDestination po (some c)) (some c) =
          Single.mergeDestination po (some c)) ∧
    (∀ (po : Option (Single.ConnectionConfig V)) (c : Single.ConnectionConfig V),
        Single.mergeConnection (Single.mergeConnection po (some c)) (some c) =
          Single.mergeConnection po (some c)) ∧
    (∀ (po : Option Single.TransformationConfig) (c : Single.TransformationConfig),
      Single.wfTransformation c →
        Single.mergeTransformation (Single.mergeTransformation po (some c)) (some c) =
          Single.mergeTransformation po (some c)) ∧
    (∀ (po : Option (Single.Manifest V)) (c : Single.Manifest V),
      Single.wfManifest c →
        Single.mergeManifests (Single.mergeManifests po (some c)) (some c) =
          Single.mergeManifests po (some c)) :=
  ⟨Single.mergeSource_idem, Single.mergeDestination_idem,
    Single.mergeConnection_idem, Single.mergeTransformation_idem,
    Single.mergeManifests_idem⟩

/-- **C7** witness: idempotence of a concrete manifest merge with scalar
override, shallow-merged auth map, and env-overlay map. -/
theorem c7_merge_idem_witness :
    Single.mergeManifests (Single.mergeManifests (some c7wParent) (some c7wChild))
        (some c7wChild) =
      Single.mergeManifests (some c7wParent) (some c7wChild) :=
  (c7_merge_idem (V := Nat)).2.2.2.2 (some c7wParent) c7wChild (by decide)

/-- **C4**.  `ResolveEnv` with an empty environment name succeeds and
returns the manifest with only its env map cleared; with a non-empty name
it fails with an environment-not-found error naming the environment
exactly when the manifest has no env map at all or the map lacks the
entry, and otherwise succeeds with the named overlay merged onto the base
resources and the result's env map cleared. -/
theorem c4_resolve_env {V : Type} (m : Single.Manifest V) (envName : String) :
    (Single.ResolveEnv m "" = .ok { m with Env := none }) ∧
    (envName ≠ "" → m.Env = none →
      Single.ResolveEnv m envName =
        .error ("environment " ++ envName ++ " not found (no env block defined)")) ∧
    (envName ≠ "" → ∀ em, m.Env = some em → GoMap.get? em envName = none →
      Single.ResolveEnv m envName =
        .error ("environment " ++ envName ++ " not found in env block")) ∧
    (envName ≠ "" → ∀ em ov, m.Env = some em → GoMap.get? em envName = some ov →
      ∃ r, Single.ResolveEnv m envName = .ok r ∧ r.Env = none ∧
        r.Profile = (if ov.Profile ≠ "" then ov.Profile else m.Profile) ∧
        r.Source = Single.mergeSource m.Source ov.Source ∧
        r.Destination = Single.mergeDestination m.Destination ov.Destination ∧
        r.Connection = Single.mergeConnection m.Connection ov.Connection ∧
        r.Transformation =
          Single.mergeTransformation m.Transformation ov.Transformation ∧
        r.Schema = m.Schema ∧ r.Version = m.Version ∧ r.Extends = m.Extends) := by
  refine ⟨by simp [Single.ResolveEnv], ?_, ?_, ?_⟩
  · intro hne hnone
    simp [Single.ResolveEnv, hne, hnone]
  · intro hne em hsome hget
    simp [Single.ResolveEnv, hne, hsome, hget]
  · intro hne em ov hsome hget
    refine ⟨{ m with
        Profile := if ov.Profile ≠ "" then ov.Profile else m.Profile
        Source := Single.mergeSource m.Source ov.Source
        Destination := Single.mergeDestination m.Destination ov.Destination
        Connection := Single.mergeConnection m.Connection ov.Connection
        Transformation := Single.mergeTransformation m.Transformation ov.Transformation
        Env := none }, ?_, rfl, rfl, rfl, rfl, rfl, rfl, rfl, rfl, rfl⟩
    simp [Single.ResolveEnv, hne, hsome, hget]

/-- **C4** witness: empty name clears the env map; an unknown name on a
manifest with an env block errors naming the environment; the known name
succeeds with the overlay's profile applied. -/
theorem c4_resolve_env_witness :
    Single.ResolveEnv c4M "" = .ok { c4M with Env := none } ∧
    Single.ResolveEnv c4M "missing" =
      .error ("environment " ++ "missing" ++ " not found in env block") ∧
    ∃ r, Single.ResolveEnv c4M "staging" = .ok r ∧ r.Env = none ∧
      r.Profile = "live" := by
  obtain ⟨h1, _, h3, _⟩ := c4_resolve_env c4M "missing"
  obtain ⟨_, _, _, h4⟩ := c4_resolve_env c4M "staging"
  obtain ⟨r, hr, hrenv, hrprof, _⟩ :=
    h4 (by decide) _ ({ Profile := "live" } : Single.EnvOverride Nat) rfl (by decide)
  exact ⟨h1, h3 (by decide) _ rfl (by decide), r, hr, hrenv, by rw [hrprof]; decide⟩

/-- **C5**.  Interpolation never short-circuits on a missing variable: the
missing list of the scanner is exactly the unset subset of all `${VAR}`
placeholders of the marshalled manifest, in scan order; consequently a
manifest whose marshalled form references `${A}` and `${B}` with neither
set fails with one error listing both names. -/
theorem c5_interpolation_missing {V : Type} :
    (∀ (env : String → Option String) (s : String),
      (Single.interpolateString env s).2 =
        (Single.extractPlaceholders s).filter (fun v => (env v).isNone)) ∧
    (∀ (marshal : Single.Manifest V → String)
        (unmarshal : String → Option (Single.Manifest V))
        (env : String → Option String) (m : Single.Manifest V) (A B : String),
      Single.extractPlaceholders (marshal m) = [A, B] →
      env A = none → env B = none →
      Single.InterpolateEnvVars marshal unmarshal env m =
        .error ("undefined environment variables: " ++ Single.goFmtStrings [A, B])) := by
  constructor
  · intro env s
    exact Single.interpAux_missing env s.data.length s.data
  · intro marshal unmarshal env m A B hext hA hB
    have h2 : (Single.interpolateString env (marshal m)).2 = [A, B] := by
      show (Single.interpAux env (marshal m).data.length (marshal m).data).2 = _
      rw [Single.interpAux_missing env (marshal m).data.length (marshal m).data]
      show (Single.extractPlaceholders (marshal m)).filter (fun v => (env v).isNone) = _
      rw [hext]
      simp [List.filter, hA, hB]
    simp [Single.InterpolateEnvVars, h2]

/-- **C5** witness: a marshalled form `a${A}b${B}c` with neither `A` nor
`B` set yields the single aggregate error listing `A` then `B`. -/
theorem c5_interpolation_missing_witness :
    Single.InterpolateEnvVars (fun _ => "a${A}b${B}c") (fun _ => none)
        (fun _ => none) ({} : Single.Manifest Nat) =
      .error ("undefined environment variables: " ++ Single.goFmtStrings ["A", "B"]) :=
  (c5_interpolation_missing (V := Nat)).2 (fun _ => "a${A}b${B}c") (fun _ => none)
    (fun _ => none) {} "A" "B" (by decide) rfl rfl

/-- Two distinct keys both found in a map force at least two entries. -/
theorem goMap_two_keys_le_length {V : Type} {fs : List (String × V)} {a b : String}
    {x y : V} (ha : GoMap.get? fs a = some x) (hb : GoMap.get? fs b = some y)
    (hab : a ≠ b) : 2 ≤ fs.length := by
  have hma := GoMap.mem_keys_of_get?_eq_some ha
  have hmb := GoMap.mem_keys_of_get?_eq_some hb
  rcases fs with _ | ⟨e, _ | ⟨e2, rest⟩⟩
  · simp at hma
  · have h1 : a = e.1 := by simpa using hma
    have h2 : b = e.1 := by simpa using hmb
    exact absurd (h1.trans h2.symm) hab
  · simp

/-- One unfolding step of the inheritance loader. -/
theorem loadAux_step {V : Type} (abs : String → String)
    (dirJoin : String → String → String) (fs : List (String × Single.Manifest V))
    (fuel : Nat) (path : String) (seen : List String) :
    Single.loadWithInheritanceAux abs dirJoin fs (fuel + 1) path seen =
      (if abs path ∈ seen then .error (.circularExtends (abs path))
       else
         match Single.LoadFile fs path with
         | .error e => .error e
         | .ok m =>
           if m.Extends = "" then .ok m
           else
             match Single.loadWithInheritanceAux abs dirJoin fs fuel
                 (dirJoin (abs path) m.Extends) (abs path :: seen) with
             | .error e => .error (.wrapParent m.Extends e)
             | .ok parent => .ok (Single.mergeManifestsCore parent m)) := rfl

/-- **C3**.  `LoadWithInheritance` fails with a circular-extends error
identifying the revisited path whenever the extends chain returns to a
manifest already visited in the same resolution call: for any two
manifests where A extends B and B extends back to A (under the path
collaborators `abs` and `dirJoin`), loading A yields an error whose
wrapped chain bottoms out in `circularExtends` at A's canonical path. -/
theorem c3_circular_extends {V : Type} (abs : String → String)
    (dirJoin : String → String → String) (fs : List (String × Single.Manifest V))
    (pA pB : String) (mA mB : Single.Manifest V)
    (hA : GoMap.get? fs pA = some mA) (hB : GoMap.get? fs pB = some mB)
    (hEA : mA.Extends ≠ "") (hEB : mB.Extends ≠ "")
    (hJA : dirJoin (abs pA) mA.Extends = pB)
    (hJB : abs (dirJoin (abs pB) mB.Extends) = abs pA)
    (hAB : abs pA ≠ abs pB) :
    ∃ e, Single.LoadWithInheritance abs dirJoin fs pA = .error e ∧
      e.circularPath? = some (abs pA) := by
  have hne : pA ≠ pB := fun h => hAB (h ▸ rfl)
  have hlen : 2 ≤ fs.length := goMap_two_keys_le_length hA hB hne
  obtain ⟨n, hn⟩ : ∃ n, fs.length + 1 = n + 2 + 1 := ⟨fs.length - 2, by omega⟩
  have hnEA : (Single.normalizeManifest mA).Extends = mA.Extends := rfl
  have hnEB : (Single.normalizeManifest mB).Extends = mB.Extends := rfl
  have hLA : Single.LoadFile fs pA = .ok (Single.normalizeManifest mA) := by
    simp only [Single.LoadFile, hA]
  have hLB : Single.LoadFile fs pB = .ok (Single.normalizeManifest mB) := by
    simp only [Single.LoadFile, hB]
  have e3 : Single.loadWithInheritanceAux abs dirJoin fs (n + 1)
      (dirJoin (abs pB) mB.Extends) [abs pB, abs pA] =
      .error (.circularExtends (abs pA)) := by
    rw [loadAux_step, hJB, if_pos (by simp)]
  have e2 : Single.loadWithInheritanceAux abs dirJoin fs (n + 1 + 1) pB [abs pA] =
      .error (.wrapParent mB.Extends (.circularExtends (abs pA))) := by
    rw [loadAux_step, if_neg (by simpa using fun h => hAB h.symm), hLB]
    simp only [hnEB, if_neg hEB, e3]
  have e1 : Single.loadWithInheritanceAux abs dirJoin fs (n + 2 + 1) pA [] =
      .error (.wrapParent mA.Extends
        (.wrapParent mB.Extends (.circularExtends (abs pA)))) := by
    rw [loadAux_step, if_neg (by simp), hLA]
    simp only [hnEA, if_neg hEA, hJA]
    rw [show n + 2 = n + 1 + 1 from rfl, e2]
  refine ⟨Single.LoadErr.wrapParent mA.Extends
    (.wrapParent mB.Extends (.circularExtends (abs pA))), ?_, rfl⟩
  unfold Single.LoadWithInheritance
  rw [hn]
  exact e1

/-- **C3** witness: manifests `a` extends `b` and `b` extends `a` under
identity path resolution make `LoadWithInheritance a` fail with a
circular-extends error at path `a`. -/
theorem c3_circular_extends_witness :
    ∃ e, Single.LoadWithInheritance (fun p => p) (fun _ ext => ext) c3FS "a" =
        .error e ∧ e.circularPath? = some "a" :=
  c3_circular_extends (fun p => p) (fun _ ext => ext) c3FS "a" "b"
    { Extends := "b" } { Extends := "a" } (by decide) (by decide) (by decide)
    (by decide) rfl rfl (by decide)

/-- `detectDestination` against a present remote carries exactly the
computed destination field diffs. -/
theorem diffFields_detectDestination {V : Type} (l : Plural.DestinationConfig V)
    (r : Hookdeck.DestinationDetail V) :
    Drift.diffFields (Drift.detectDestination l (some r)) =
      Drift.destinationFieldDiffs l r.Config := by
  by_cases h : (Drift.destinationFieldDiffs l r.Config).length > 0
  · simp [Drift.detectDestination, h, Drift.diffFields]
  · have hnil : Drift.destinationFieldDiffs l r.Config = [] :=
      List.eq_nil_of_length_eq_zero (by omega)
    simp [Drift.detectDestination, h, Drift.diffFields, hnil]

/-- **C6**.  For a destination with a remote counterpart, the comparator
emits a field diff for `url`, `auth_type`, `rate_limit` (compared via its
string representation) or `rate_limit_period` exactly when the local value
is non-empty / non-zero and differs from the value in the remote's nested
config sub-object; in particular a zero local `rate_limit` never yields a
`rate_limit` diff, and no other field names are ever emitted. -/
theorem c6_destination_field_diffs {V : Type} (l : Plural.DestinationConfig V)
    (r : Hookdeck.DestinationDetail V) :
    (Drift.FieldDiff.mk "url" l.URL r.Config.URL ∈
        Drift.diffFields (Drift.detectDestination l (some r)) ↔
      l.URL ≠ "" ∧ l.URL ≠ r.Config.URL) ∧
    (Drift.FieldDiff.mk "auth_type" l.AuthType r.Config.AuthType ∈
        Drift.diffFields (Drift.detectDestination l (some r)) ↔
      l.AuthType ≠ "" ∧ l.AuthType ≠ r.Config.AuthType) ∧
    (Drift.FieldDiff.mk "rate_limit" (toString l.RateLimit)
        (toString r.Config.RateLimit) ∈
        Drift.diffFields (Drift.detectDestination l (some r)) ↔
      l.RateLimit ≠ 0 ∧ l.RateLimit ≠ r.Config.RateLimit) ∧
    (Drift.FieldDiff.mk "rate_limit_period" l.RateLimitPeriod
        r.Config.RateLimitPeriod ∈
        Drift.diffFields (Drift.detectDestination l (some r)) ↔
      l.RateLimitPeriod ≠ "" ∧ l.RateLimitPeriod ≠ r.Config.RateLimitPeriod) ∧
    (l.RateLimit = 0 →
      ∀ fd ∈ Drift.diffFields (Drift.detectDestination l (some r)),
        fd.Field ≠ "rate_limit") ∧
    (∀ fd ∈ Drift.diffFields (Drift.detectDestination l (some r)),
      fd.Field ∈ ["url", "auth_type", "rate_limit", "rate_limit_period"]) := by
  rw [diffFields_detectDestination l r]
  refine ⟨?_, ?_, ?_, ?_, ?_, ?_⟩
  · simp only [Drift.destinationFieldDiffs, List.mem_append]
    split_ifs <;> simp_all
    all_goals tauto
  · simp only [Drift.destinationFieldDiffs, List.mem_append]
    split_ifs <;> simp_all
    all_goals tauto
  · simp only [Drift.destinationFieldDiffs, List.mem_append]
    split_ifs <;> simp_all
    all_goals tauto
  · simp only [Drift.destinationFieldDiffs, List.mem_append]
    split_ifs <;> simp_all
    all_goals tauto
  · intro h0 fd hfd
    simp only [Drift.destinationFieldDiffs, List.mem_append] at hfd
    rcases hfd with ((h | h) | h) | h <;> split_ifs at h <;> simp_all
  · intro fd hfd
    simp only [Drift.destinationFieldDiffs, List.mem_append] at hfd
    rcases hfd with ((h | h) | h) | h <;> split_ifs at h <;> simp_all

/-- **C6** witness: a local destination declaring only a URL against a
remote with a different URL and a non-zero rate limit yields the `url`
diff and never a `rate_limit` diff. -/
theorem c6_destination_field_diffs_witness :
    Drift.FieldDiff.mk "url" c6Local.URL c6Remote.Config.URL ∈
      Drift.diffFields (Drift.detectDestination c6Local (some c6Remote)) ∧
    ∀ fd ∈ Drift.diffFields (Drift.detectDestination c6Local (some c6Remote)),
      fd.Field ≠ "rate_limit" := by
  obtain ⟨h1, _, _, _, h5, _⟩ := c6_destination_field_diffs c6Local c6Remote
  exact ⟨h1.2 (by decide), h5 rfl⟩

/-- **C8**, counterexample.  The per-resource resolvers do not return the
resource unchanged: the Go code rebuilds the struct without its
per-environment override map, so a source carrying overrides comes back
with that map cleared even for an empty environment name. -/
theorem c8_counterexample : Plural.ResolveSourceEnv c8Src "" ≠ c8Src := by
  decide

/-- **C8** (amended).  With an empty environment name, or a name for which
the resource has no override entry, each per-resource resolver returns a
copy of the resource with only its per-environment override map cleared —
every other field unchanged — and never fails (the resolvers are total;
there is no unknown-environment error, unlike the whole-manifest
resolver). -/
theorem c8_per_resource_resolvers {V : Type} :
    (∀ (src : Plural.SourceConfig V) (envName : String),
      envName = "" ∨ GoMap.get? (src.Env.getD []) envName = none →
        Plural.ResolveSourceEnv src envName = { src with Env := none }) ∧
    (∀ (dst : Plural.DestinationConfig V) (envName : String),
      envName = "" ∨ GoMap.get? (dst.Env.getD []) envName = none →
        Plural.ResolveDestinationEnv dst envName = { dst with Env := none }) ∧
    (∀ (tr : Plural.TransformationConfig) (envName : String),
      envName = "" ∨ GoMap.get? (tr.EnvOverrides.getD []) envName = none →
        Plural.ResolveTransformationEnv tr envName =
          { tr with EnvOverrides := none }) := by
  refine ⟨?_, ?_, ?_⟩
  · intro src envName h
    by_cases he : envName = ""
    · simp [Plural.ResolveSourceEnv, he]
    · rcases h with h | h
      · exact absurd h he
      · cases henv : src.Env with
        | none => simp [Plural.ResolveSourceEnv, he, henv]
        | some em =>
          have hg : GoMap.get? em envName = none := by
            simpa [henv] using h
          simp [Plural.ResolveSourceEnv, he, henv, hg]
  · intro dst envName h
    by_cases he : envName = ""
    · simp [Plural.ResolveDestinationEnv, he]
    · rcases h with h | h
      · exact absurd h he
      · cases henv : dst.Env with
        | none => simp [Plural.ResolveDestinationEnv, he, henv]
        | some em =>
          have hg : GoMap.get? em envName = none := by
            simpa [henv] using h
          simp [Plural.ResolveDestinationEnv, he, henv, hg]
  · intro tr envName h
    by_cases he : envName = ""
    · simp [Plural.ResolveTransformationEnv, he]
    · rcases h with h | h
      · exact absurd h he
      · cases henv : tr.EnvOverrides with
        | none => simp [Plural.ResolveTransformationEnv, he, henv]
        | some em =>
          have hg : GoMap.get? em envName = none := by
            simpa [henv] using h
          simp [Plural.ResolveTransformationEnv, he, henv, hg]

/-- **C8** witness: the three resolvers at an empty name or an undefined
environment return their input with the override map cleared. -/
theorem c8_per_resource_resolvers_witness :
    Plural.ResolveSourceEnv c8Src "" = { c8Src with Env := none } ∧
    Plural.ResolveDestinationEnv c8Dst "other" = { c8Dst with Env := none } ∧
    Plural.ResolveTransformationEnv c8Tr "" = { c8Tr with EnvOverrides := none } := by
  obtain ⟨h1, h2, h3⟩ := c8_per_resource_resolvers (V := Nat)
  exact ⟨h1 c8Src "" (Or.inl rfl), h2 c8Dst "other" (Or.inr (by decide)),
    h3 c8Tr "" (Or.inl rfl)⟩

/-- An entry whose comparator fires lands in the diff list of the loop. -/
theorem detectLoop_mem {α : Type} (f : α → Nat → Option Drift.Diff) :
    ∀ (l : List α) (k i : Nat) (h : i < l.length) (d : Drift.Diff),
      f (l.get ⟨i, h⟩) (k + i) = some d → d ∈ Drift.detectLoop f l k := by
  intro l
  induction l with
  | nil => intro k i h; simp at h
  | cons x xs ih =>
    intro k i h d hf
    cases i with
    | zero =>
      rw [Nat.add_zero] at hf
      have hf0 : f x k = some d := hf
      rw [show Drift.detectLoop f (x :: xs) k =
          (match f x k with
           | some d => d :: Drift.detectLoop f xs (k + 1)
           | none => Drift.detectLoop f xs (k + 1)) from rfl, hf0]
      exact List.mem_cons_self _ _
    | succ i =>
      have hx : i < xs.length := by simpa using h
      have hf' : f (xs.get ⟨i, hx⟩) (k + 1 + i) = some d := by
        rw [show k + 1 + i = k + (i + 1) from by omega]
        exact hf
      have hmem := ih (k + 1) i hx d hf'
      rw [show Drift.detectLoop f (x :: xs) k =
          (match f x k with
           | some d => d :: Drift.detectLoop f xs (k + 1)
           | none => Drift.detectLoop f xs (k + 1)) from rfl]
      cases hfx : f x k <;> simp [hmem]

/-- **C10**.  `Detect` is total when a remote slice is shorter than its
local counterpart: a local entry at an index at or beyond the remote
slice's length is treated as not found remotely (the index guard yields
the nil sentinel instead of an out-of-bounds read) and contributes a diff
with status `missing` and no field diffs — for each of the four kinds. -/
theorem c10_detect_short_remote {V : Type} (sources : List (Plural.SourceConfig V))
    (destinations : List (Plural.DestinationConfig V))
    (transformations : List Plural.TransformationConfig)
    (connections : List (Plural.ConnectionConfig V)) (remote : Drift.RemoteState V) :
    (∀ i (h : i < sources.length), remote.Sources.length ≤ i →
      Drift.Diff.mk "source" (sources.get ⟨i, h⟩).Name .missing [] ∈
        Drift.Detect sources destinations transformations connections remote) ∧
    (∀ i (h : i < destinations.length), remote.Destinations.length ≤ i →
      Drift.Diff.mk "destination" (destinations.get ⟨i, h⟩).Name .missing [] ∈
        Drift.Detect sources destinations transformations connections remote) ∧
    (∀ i (h : i < connections.length), remote.Connections.length ≤ i →
      Drift.Diff.mk "connection" (connections.get ⟨i, h⟩).Name .missing [] ∈
        Drift.Detect sources destinations transformations connections remote) ∧
    (∀ i (h : i < transformations.length), remote.Transformations.length ≤ i →
      Drift.Diff.mk "transformation" (transformations.get ⟨i, h⟩).Name .missing [] ∈
        Drift.Detect sources destinations transformations connections remote) := by
  refine ⟨?_, ?_, ?_, ?_⟩
  · intro i h hle
    have hloop := detectLoop_mem
      (fun x j => Drift.detectSource x
        (if j < remote.Sources.length then remote.Sources.getD j none else none))
      sources 0 i h (Drift.Diff.mk "source" (sources.get ⟨i, h⟩).Name .missing [])
      (by
        show Drift.detectSource (sources.get ⟨i, h⟩)
          (if 0 + i < remote.Sources.length then remote.Sources.getD (0 + i) none
           else none) = _
        rw [Nat.zero_add, if_neg (Nat.not_lt.2 hle)]
        rfl)
    exact List.mem_append_left _ (List.mem_append_left _
      (List.mem_append_left _ hloop))
  · intro i h hle
    have hloop := detectLoop_mem
      (fun x j => Drift.detectDestination x
        (if j < remote.Destinations.length then remote.Destinations.getD j none else none))
      destinations 0 i h (Drift.Diff.mk "destination" (destinations.get ⟨i, h⟩).Name .missing [])
      (by
        show Drift.detectDestination (destinations.get ⟨i, h⟩)
          (if 0 + i < remote.Destinations.length then remote.Destinations.getD (0 + i) none
           else none) = _
        rw [Nat.zero_add, if_neg (Nat.not_lt.2 hle)]
        rfl)
    exact List.mem_append_left _ (List.mem_append_left _
      (List.mem_append_right _ hloop))
  · intro i h hle
    have hloop := detectLoop_mem
      (fun x j => Drift.detectConnection x
        (if j < remote.Connections.length then remote.Connections.getD j none else none))
      connections 0 i h (Drift.Diff.mk "connection" (connections.get ⟨i, h⟩).Name .missing [])
      (by
        show Drift.detectConnection (connections.get ⟨i, h⟩)
          (if 0 + i < remote.Connections.length then remote.Connections.getD (0 + i) none
           else none) = _
        rw [Nat.zero_add, if_neg (Nat.not_lt.2 hle)]
        rfl)
    exact List.mem_append_left _ (List.mem_append_right _ hloop)
  · intro i h hle
    have hloop := detectLoop_mem
      (fun x j => Drift.detectTransformation x
        (if j < remote.Transformations.length then remote.Transformations.getD j none else none))
      transformations 0 i h (Drift.Diff.mk "transformation" (transformations.get ⟨i, h⟩).Name .missing [])
      (by
        show Drift.detectTransformation (transformations.get ⟨i, h⟩)
          (if 0 + i < remote.Transformations.length then remote.Transformations.getD (0 + i) none
           else none) = _
        rw [Nat.zero_add, if_neg (Nat.not_lt.2 hle)]
        rfl)
    exact List.mem_append_right _ hloop

/-- **C10** witness: with an entirely empty remote state, the single local
source produces the missing diff. -/
theorem c10_detect_short_remote_witness :
    Drift.Diff.mk "source" "s1" .missing [] ∈
      Drift.Detect [c10Src] [] [] [] ({} : Drift.RemoteState Nat) :=
  (c10_detect_short_remote [c10Src] [] [] [] {}).1 0 (by decide) (by decide)

theorem GoMap.exists_get?_of_mem_keys {V : Type} {m : List (String × V)} {k : String}
    (h : k ∈ GoMap.keys m) : ∃ v, GoMap.get? m k = some v := by
  induction m with
  | nil => simp at h
  | cons e rest ih =>
    by_cases he : e.1 = k
    · exact ⟨e.2, by rw [GoMap.get?, if_pos he]⟩
    · rcases List.mem_cons.1 h with h1 | h1
      · exact absurd h1.symm he
      · obtain ⟨v, hv⟩ := ih h1
        exact ⟨v, by rw [GoMap.get?, if_neg he, hv]⟩

/-- Elements already accumulated survive an appending fold. -/
theorem foldl_append_mono {α : Type} (f : α → List String) (e : String) :
    ∀ (l : List α) (acc : List String), e ∈ acc →
      e ∈ l.foldl (fun a x => a ++ f x) acc := by
  intro l
  induction l with
  | nil => intro acc h; exact h
  | cons x xs ih =>
    intro acc h
    exact ih _ (List.mem_append_left _ h)

/-- An element contributed by any list entry lands in the appending fold. -/
theorem foldl_append_mem {α : Type} (f : α → List String) (e : String) :
    ∀ (l : List α) (acc : List String) (x : α), x ∈ l → e ∈ f x →
      e ∈ l.foldl (fun a y => a ++ f y) acc := by
  intro l
  induction l with
  | nil => intro acc x h; simp at h
  | cons y ys ih =>
    intro acc x hx he
    rcases List.mem_cons.1 hx with h1 | h1
    · subst h1
      exact foldl_append_mono f e ys _ (List.mem_append_right _ he)
    · exact ih _ x h1 he

theorem registerSource_errors_mono {V : Type} (fp : String) (r : Project.Registry V)
    (s : Plural.SourceConfig V) {e : String} (h : e ∈ r.collisionErrors) :
    e ∈ (Project.registerSource fp r s).collisionErrors := by
  cases hg : GoMap.get? r.Sources s.Name <;> simp [Project.registerSource, hg, h]

theorem registerSource_keys {V : Type} (fp : String) (r : Project.Registry V)
    (s : Plural.SourceConfig V) (n : String) :
    n ∈ GoMap.keys (Project.registerSource fp r s).Sources ↔
      n ∈ GoMap.keys r.Sources ∨ n = s.Name := by
  cases hg : GoMap.get? r.Sources s.Name with
  | some f1 =>
    simp only [Project.registerSource, hg]
    constructor
    · exact Or.inl
    · rintro (h | h)
      · exact h
      · exact h ▸ GoMap.mem_keys_of_get?_eq_some hg
  | none =>
    simp only [Project.registerSource, hg]
    exact GoMap.mem_keys_set r.Sources s.Name n fp

theorem registerSource_preserves {V : Type} (fp : String) (r : Project.Registry V)
    (s : Plural.SourceConfig V) :
    (Project.registerSource fp r s).Destinations = r.Destinations ∧
    (Project.registerSource fp r s).Transformations = r.Transformations ∧
    (Project.registerSource fp r s).Connections = r.Connections ∧
    (Project.registerSource fp r s).ConnectionList = r.ConnectionList := by
  cases hg : GoMap.get? r.Sources s.Name <;> simp [Project.registerSource, hg]

theorem foldSource_errors_mono {V : Type} (fp : String)
    (ss : List (Plural.SourceConfig V)) :
    ∀ (r : Project.Registry V) {e : String}, e ∈ r.collisionErrors →
      e ∈ (ss.foldl (Project.registerSource fp) r).collisionErrors := by
  induction ss with
  | nil => intro r _ h; exact h
  | cons s ss ih =>
    intro r e h
    exact ih _ (registerSource_errors_mono fp r s h)

theorem foldSource_keys {V : Type} (fp : String) (ss : List (Plural.SourceConfig V))
    (n : String) :
    ∀ (r : Project.Registry V),
      (n ∈ GoMap.keys (ss.foldl (Project.registerSource fp) r).Sources ↔
        n ∈ GoMap.keys r.Sources ∨ n ∈ ss.map (·.Name)) := by
  induction ss with
  | nil => intro r; simp
  | cons s ss ih =>
    intro r
    rw [List.foldl_cons, ih, registerSource_keys]
    constructor
    · rintro ((h | h) | h)
      · exact Or.inl h
      · exact Or.inr (by simp [h])
      · exact Or.inr (by simp [h])
    · rintro (h | h)
      · exact Or.inl (Or.inl h)
      · rcases List.mem_cons.1 h with h1 | h1
        · exact Or.inl (Or.inr h1)
        · exact Or.inr h1

theorem foldSource_preserves {V : Type} (fp : String)
    (ss : List (Plural.SourceConfig V)) :
    ∀ (r : Project.Registry V),
      (ss.foldl (Project.registerSource fp) r).Destinations = r.Destinations ∧
      (ss.foldl (Project.registerSource fp) r).Transformations = r.Transformations ∧
      (ss.foldl (Project.registerSource fp) r).Connections = r.Connections ∧
      (ss.foldl (Project.registerSource fp) r).ConnectionList = r.ConnectionList := by
  induction ss with
  | nil => intro r; exact ⟨rfl, rfl, rfl, rfl⟩
  | cons s ss ih =>
    intro r
    obtain ⟨h1, h2, h3, h4⟩ := ih (Project.registerSource fp r s)
    obtain ⟨g1, g2, g3, g4⟩ := registerSource_preserves fp r s
    exact ⟨h1.trans g1, h2.trans g2, h3.trans g3, h4.trans g4⟩

theorem foldSource_dup_of_mem {V : Type} (fp : String) :
    ∀ (ss : List (Plural.SourceConfig V)) (r : Project.Registry V) (n : String),
      n ∈ GoMap.keys r.Sources → n ∈ ss.map (·.Name) →
      ∃ f1, Project.dupMsg "source" n f1 fp ∈
        (ss.foldl (Project.registerSource fp) r).collisionErrors := by
  intro ss
  induction ss with
  | nil => intro r n _ h; simp at h
  | cons s ss ih =>
    intro r n hkey hmem
    by_cases hs : s.Name = n
    · obtain ⟨f1, hf1⟩ := GoMap.exists_get?_of_mem_keys hkey
      refine ⟨f1, foldSource_errors_mono fp ss _ ?_⟩
      simp [Project.registerSource, hs, hf1]
    · rcases List.mem_cons.1 hmem with h1 | h1
      · exact absurd h1.symm hs
      · exact ih _ n ((registerSource_keys fp r s n).2 (Or.inl hkey)) h1

theorem foldSource_dup_of_count {V : Type} (fp : String) :
    ∀ (ss : List (Plural.SourceConfig V)) (r : Project.Registry V) (n : String),
      2 ≤ (ss.map (·.Name)).count n →
      ∃ f1, Project.dupMsg "source" n f1 fp ∈
        (ss.foldl (Project.registerSource fp) r).collisionErrors := by
  intro ss
  induction ss with
  | nil => intro r n h; simp at h
  | cons s ss ih =>
    intro r n hcount
    rw [List.map_cons, List.count_cons] at hcount
    by_cases hs : n = s.Name
    · have h1 : (if (s.Name == n) = true then 1 else 0) = 1 := by simp [hs]
      rw [h1] at hcount
      have hmem : n ∈ ss.map (·.Name) := List.count_pos_iff.1 (by omega)
      exact foldSource_dup_of_mem fp ss _ n
        ((registerSource_keys fp r s n).2 (Or.inr hs)) hmem
    · have h1 : (if (s.Name == n) = true then 1 else 0) = 0 := by
        simp [show s.Name ≠ n from fun h => hs h.symm]
      rw [h1] at hcount
      exact ih _ n (by omega)

theorem foldSource_noerr {V : Type} (fp : String) :
    ∀ (ss : List (Plural.SourceConfig V)) (r : Project.Registry V),
      (ss.map (·.Name)).Nodup →
      (∀ x ∈ ss.map (·.Name), x ∉ GoMap.keys r.Sources) →
      (ss.foldl (Project.registerSource fp) r).collisionErrors = r.collisionErrors := by
  intro ss
  induction ss with
  | nil => intro r _ _; rfl
  | cons s ss ih =>
    intro r hnd hdisj
    have hkey : s.Name ∉ GoMap.keys r.Sources := hdisj s.Name (by simp)
    have hg : GoMap.get? r.Sources s.Name = none :=
      GoMap.get?_eq_none_of_not_mem _ _ hkey
    rw [List.foldl_cons]
    have herr : (Project.registerSource fp r s).collisionErrors = r.collisionErrors := by
      simp [Project.registerSource, hg]
    rw [ih _ (by simpa using hnd.of_cons), herr]
    intro x hx
    rw [registerSource_keys]
    rintro (h | h)
    · exact hdisj x (by simp [hx]) h
    · rw [List.map_cons, List.nodup_cons] at hnd
      exact hnd.1 (h ▸ hx)

theorem registerDestination_errors_mono {V : Type} (fp : String) (r : Project.Registry V)
    (s : Plural.DestinationConfig V) {e : String} (h : e ∈ r.collisionErrors) :
    e ∈ (Project.registerDestination fp r s).collisionErrors := by
  cases hg : GoMap.get? r.Destinations s.Name <;>
    simp [Project.registerDestination, hg, h]

theorem registerDestination_keys {V : Type} (fp : String) (r : Project.Registry V)
    (s : Plural.DestinationConfig V) (n : String) :
    n ∈ GoMap.keys (Project.registerDestination fp r s).Destinations ↔
      n ∈ GoMap.keys r.Destinations ∨ n = s.Name := by
  cases hg : GoMap.get? r.Destinations s.Name with
  | some f1 =>
    simp only [Project.registerDestination, hg]
    constructor
    · exact Or.inl
    · rintro (h | h)
      · exact h
      · exact h ▸ GoMap.mem_keys_of_get?_eq_some hg
  | none =>
    simp only [Project.registerDestination, hg]
    exact GoMap.mem_keys_set r.Destinations s.Name n fp

theorem registerDestination_preserves {V : Type} (fp : String) (r : Project.Registry V)
    (s : Plural.DestinationConfig V) :
    (Project.registerDestination fp r s).Sources = r.Sources ∧
    (Project.registerDestination fp r s).Transformations = r.Transformations ∧
    (Project.registerDestination fp r s).Connections = r.Connections ∧
    (Project.registerDestination fp r s).ConnectionList = r.ConnectionList := by
  cases hg : GoMap.get? r.Destinations s.Name <;>
    simp [Project.registerDestination, hg]

theorem foldDestination_errors_mono {V : Type} (fp : String)
    (ss : List (Plural.DestinationConfig V)) :
    ∀ (r : Project.Registry V) {e : String}, e ∈ r.collisionErrors →
      e ∈ (ss.foldl (Project.registerDestination fp) r).collisionErrors := by
  induction ss with
  | nil => intro r _ h; exact h
  | cons s ss ih =>
    intro r e h
    exact ih _ (registerDestination_errors_mono fp r s h)

theorem foldDestination_keys {V : Type} (fp : String) (ss : List (Plural.DestinationConfig V))
    (n : String) :
    ∀ (r : Project.Registry V),
      (n ∈ GoMap.keys (ss.foldl (Project.registerDestination fp) r).Destinations ↔
        n ∈ GoMap.keys r.Destinations ∨ n ∈ ss.map (·.Name)) := by
  induction ss with
  | nil => intro r; simp
  | cons s ss ih =>
    intro r
    rw [List.foldl_cons, ih, registerDestination_keys]
    constructor
    · rintro ((h | h) | h)
      · exact Or.inl h
      · exact Or.inr (by simp [h])
      · exact Or.inr (by simp [h])
    · rintro (h | h)
      · exact Or.inl (Or.inl h)
      · rcases List.mem_cons.1 h with h1 | h1
        · exact Or.inl (Or.inr h1)
        · exact Or.inr h1

theorem foldDestination_preserves {V : Type} (fp : String)
    (ss : List (Plural.DestinationConfig V)) :
    ∀ (r : Project.Registry V),
      ((ss.foldl (Project.registerDestination fp) r)).Sources = r.Sources ∧
      ((ss.foldl (Project.registerDestination fp) r)).Transformations = r.Transformations ∧
      ((ss.foldl (Project.registerDestination fp) r)).Connections = r.Connections ∧
      ((ss.foldl (Project.registerDestination fp) r)).ConnectionList = r.ConnectionList := by
  induction ss with
  | nil => intro r; exact ⟨rfl, rfl, rfl, rfl⟩
  | cons s ss ih =>
    intro r
    obtain ⟨h1, h2, h3, h4⟩ := ih (Project.registerDestination fp r s)
    obtain ⟨g1, g2, g3, g4⟩ := registerDestination_preserves fp r s
    exact ⟨h1.trans g1, h2.trans g2, h3.trans g3, h4.trans g4⟩

theorem foldDestination_dup_of_mem {V : Type} (fp : String) :
    ∀ (ss : List (Plural.DestinationConfig V)) (r : Project.Registry V) (n : String),
      n ∈ GoMap.keys r.Destinations → n ∈ ss.map (·.Name) →
      ∃ f1, Project.dupMsg "destination" n f1 fp ∈
        (ss.foldl (Project.registerDestination fp) r).collisionErrors := by
  intro ss
  induction ss with
  | nil => intro r n _ h; simp at h
  | cons s ss ih =>
    intro r n hkey hmem
    by_cases hs : s.Name = n
    · obtain ⟨f1, hf1⟩ := GoMap.exists_get?_of_mem_keys hkey
      refine ⟨f1, foldDestination_errors_mono fp ss _ ?_⟩
      simp [Project.registerDestination, hs, hf1]
    · rcases List.mem_cons.1 hmem with h1 | h1
      · exact absurd h1.symm hs
      · exact ih _ n ((registerDestination_keys fp r s n).2 (Or.inl hkey)) h1

theorem foldDestination_dup_of_count {V : Type} (fp : String) :
    ∀ (ss : List (Plural.DestinationConfig V)) (r : Project.Registry V) (n : String),
      2 ≤ (ss.map (·.Name)).count n →
      ∃ f1, Project.dupMsg "destination" n f1 fp ∈
        (ss.foldl (Project.registerDestination fp) r).collisionErrors := by
  intro ss
  induction ss with
  | nil => intro r n h; simp at h
  | cons s ss ih =>
    intro r n hcount
    rw [List.map_cons, List.count_cons] at hcount
    by_cases hs : n = s.Name
    · have h1 : (if (s.Name == n) = true then 1 else 0) = 1 := by simp [hs]
      rw [h1] at hcount
      have hmem : n ∈ ss.map (·.Name) := List.count_pos_iff.1 (by omega)
      exact foldDestination_dup_of_mem fp ss _ n
        ((registerDestination_keys fp r s n).2 (Or.inr hs)) hmem
    · have h1 : (if (s.Name == n) = true then 1 else 0) = 0 := by
        simp [show s.Name ≠ n from fun h => hs h.symm]
      rw [h1] at hcount
      exact ih _ n (by omega)

theorem foldDestination_noerr {V : Type} (fp : String) :
    ∀ (ss : List (Plural.DestinationConfig V)) (r : Project.Registry V),
      (ss.map (·.Name)).Nodup →
      (∀ x ∈ ss.map (·.Name), x ∉ GoMap.keys r.Destinations) →
      (ss.foldl (Project.registerDestination fp) r).collisionErrors = r.collisionErrors := by
  intro ss
  induction ss with
  | nil => intro r _ _; rfl
  | cons s ss ih =>
    intro r hnd hdisj
    have hkey : s.Name ∉ GoMap.keys r.Destinations := hdisj s.Name (by simp)
    have hg : GoMap.get? r.Destinations s.Name = none :=
      GoMap.get?_eq_none_of_not_mem _ _ hkey
    rw [List.foldl_cons]
    have herr : (Project.registerDestination fp r s).collisionErrors = r.collisionErrors := by
      simp [Project.registerDestination, hg]
    rw [ih _ (by simpa using hnd.of_cons), herr]
    intro x hx
    rw [registerDestination_keys]
    rintro (h | h)
    · exact hdisj x (by simp [hx]) h
    · rw [List.map_cons, List.nodup_cons] at hnd
      exact hnd.1 (h ▸ hx)

theorem registerConnection_errors_mono {V : Type} (fp : String) (r : Project.Registry V)
    (s : Plural.ConnectionConfig V) {e : String} (h : e ∈ r.collisionErrors) :
    e ∈ (Project.registerConnection fp r s).collisionErrors := by
  cases hg : GoMap.get? r.Connections s.Name <;>
    simp [Project.registerConnection, hg, h]

theorem registerConnection_keys {V : Type} (fp : String) (r : Project.Registry V)
    (s : Plural.ConnectionConfig V) (n : String) :
    n ∈ GoMap.keys (Project.registerConnection fp r s).Connections ↔
      n ∈ GoMap.keys r.Connections ∨ n = s.Name := by
  cases hg : GoMap.get? r.Connections s.Name with
  | some f1 =>
    simp only [Project.registerConnection, hg]
    constructor
    · exact Or.inl
    · rintro (h | h)
      · exact h
      · exact h ▸ GoMap.mem_keys_of_get?_eq_some hg
  | none =>
    simp only [Project.registerConnection, hg]
    exact GoMap.mem_keys_set r.Connections s.Name n fp

theorem registerConnection_preserves {V : Type} (fp : String) (r : Project.Registry V)
    (s : Plural.ConnectionConfig V) :
    (Project.registerConnection fp r s).Sources = r.Sources ∧
    (Project.registerConnection fp r s).Destinations = r.Destinations ∧
    (Project.registerConnection fp r s).Transformations = r.Transformations := by
  cases hg : GoMap.get? r.Connections s.Name <;>
    simp [Project.registerConnection, hg]

theorem foldConnection_errors_mono {V : Type} (fp : String)
    (ss : List (Plural.ConnectionConfig V)) :
    ∀ (r : Project.Registry V) {e : String}, e ∈ r.collisionErrors →
      e ∈ (ss.foldl (Project.registerConnection fp) r).collisionErrors := by
  induction ss with
  | nil => intro r _ h; exact h
  | cons s ss ih =>
    intro r e h
    exact ih _ (registerConnection_errors_mono fp r s h)

theorem foldConnection_keys {V : Type} (fp : String) (ss : List (Plural.ConnectionConfig V))
    (n : String) :
    ∀ (r : Project.Registry V),
      (n ∈ GoMap.keys (ss.foldl (Project.registerConnection fp) r).Connections ↔
        n ∈ GoMap.keys r.Connections ∨ n ∈ ss.map (·.Name)) := by
  induction ss with
  | nil => intro r; simp
  | cons s ss ih =>
    intro r
    rw [List.foldl_cons, ih, registerConnection_keys]
    constructor
    · rintro ((h | h) | h)
      · exact Or.inl h
      · exact Or.inr (by simp [h])
      · exact Or.inr (by simp [h])
    · rintro (h | h)
      · exact Or.inl (Or.inl h)
      · rcases List.mem_cons.1 h with h1 | h1
        · exact Or.inl (Or.inr h1)
        · exact Or.inr h1

theorem foldConnection_preserves {V : Type} (fp : String)
    (ss : List (Plural.ConnectionConfig V)) :
    ∀ (r : Project.Registry V),
      ((ss.foldl (Project.registerConnection fp) r)).Sources = r.Sources ∧
      ((ss.foldl (Project.registerConnection fp) r)).Destinations = r.Destinations ∧
      ((ss.foldl (Project.registerConnection fp) r)).Transformations = r.Transformations := by
  induction ss with
  | nil => intro r; exact ⟨rfl, rfl, rfl⟩
  | cons s ss ih =>
    intro r
    obtain ⟨h1, h2, h3⟩ := ih (Project.registerConnection fp r s)
    obtain ⟨g1, g2, g3⟩ := registerConnection_preserves fp r s
    exact ⟨h1.trans g1, h2.trans g2, h3.trans g3⟩

theorem foldConnection_dup_of_mem {V : Type} (fp : String) :
    ∀ (ss : List (Plural.ConnectionConfig V)) (r : Project.Registry V) (n : String),
      n ∈ GoMap.keys r.Connections → n ∈ ss.map (·.Name) →
      ∃ f1, Project.dupMsg "connection" n f1 fp ∈
        (ss.foldl (Project.registerConnection fp) r).collisionErrors := by
  intro ss
  induction ss with
  | nil => intro r n _ h; simp at h
  | cons s ss ih =>
    intro r n hkey hmem
    by_cases hs : s.Name = n
    · obtain ⟨f1, hf1⟩ := GoMap.exists_get?_of_mem_keys hkey
      refine ⟨f1, foldConnection_errors_mono fp ss _ ?_⟩
      simp [Project.registerConnection, hs, hf1]
    · rcases List.mem_cons.1 hmem with h1 | h1
      · exact absurd h1.symm hs
      · exact ih _ n ((registerConnection_keys fp r s n).2 (Or.inl hkey)) h1

theorem foldConnection_dup_of_count {V : Type} (fp : String) :
    ∀ (ss : List (Plural.ConnectionConfig V)) (r : Project.Registry V) (n : String),
      2 ≤ (ss.map (·.Name)).count n →
      ∃ f1, Project.dupMsg "connection" n f1 fp ∈
        (ss.foldl (Project.registerConnection fp) r).collisionErrors := by
  intro ss
  induction ss with
  | nil => intro r n h; simp at h
  | cons s ss ih =>
    intro r n hcount
    rw [List.map_cons, List.count_cons] at hcount
    by_cases hs : n = s.Name
    · have h1 : (if (s.Name == n) = true then 1 else 0) = 1 := by simp [hs]
      rw [h1] at hcount
      have hmem : n ∈ ss.map (·.Name) := List.count_pos_iff.1 (by omega)
      exact foldConnection_dup_of_mem fp ss _ n
        ((registerConnection_keys fp r s n).2 (Or.inr hs)) hmem
    · have h1 : (if (s.Name == n) = true then 1 else 0) = 0 := by
        simp [show s.Name ≠ n from fun h => hs h.symm]
      rw [h1] at hcount
      exact ih _ n (by omega)

theorem foldConnection_noerr {V : Type} (fp : String) :
    ∀ (ss : List (Plural.ConnectionConfig V)) (r : Project.Registry V),
      (ss.map (·.Name)).Nodup →
      (∀ x ∈ ss.map (·.Name), x ∉ GoMap.keys r.Connections) →
      (ss.foldl (Project.registerConnection fp) r).collisionErrors = r.collisionErrors := by
  intro ss
  induction ss with
  | nil => intro r _ _; rfl
  | cons s ss ih =>
    intro r hnd hdisj
    have hkey : s.Name ∉ GoMap.keys r.Connections := hdisj s.Name (by simp)
    have hg : GoMap.get? r.Connections s.Name = none :=
      GoMap.get?_eq_none_of_not_mem _ _ hkey
    rw [List.foldl_cons]
    have herr : (Project.registerConnection fp r s).collisionErrors = r.collisionErrors := by
      simp [Project.registerConnection, hg]
    rw [ih _ (by simpa using hnd.of_cons), herr]
    intro x hx
    rw [registerConnection_keys]
    rintro (h | h)
    · exact hdisj x (by simp [hx]) h
    · rw [List.map_cons, List.nodup_cons] at hnd
      exact hnd.1 (h ▸ hx)

theorem registerTransformation_errors_mono {V : Type} (dirJoin : String → String → String) (fp : String) (r : Project.Registry V)
    (s : Plural.TransformationConfig) {e : String} (h : e ∈ r.collisionErrors) :
    e ∈ (Project.registerTransformation dirJoin fp r s).collisionErrors := by
  cases hg : GoMap.get? r.Transformations s.Name <;>
    simp [Project.registerTransformation, hg, h, apply_ite]

theorem registerTransformation_keys {V : Type} (dirJoin : String → String → String) (fp : String) (r : Project.Registry V)
    (s : Plural.TransformationConfig) (n : String) :
    n ∈ GoMap.keys (Project.registerTransformation dirJoin fp r s).Transformations ↔
      n ∈ GoMap.keys r.Transformations ∨ n = s.Name := by
  cases hg : GoMap.get? r.Transformations s.Name with
  | some f1 =>
    simp only [Project.registerTransformation, hg, apply_ite, ite_self]
    constructor
    · exact Or.inl
    · rintro (h | h)
      · exact h
      · exact h ▸ GoMap.mem_keys_of_get?_eq_some hg
  | none =>
    simp only [Project.registerTransformation, hg, apply_ite, ite_self]
    exact GoMap.mem_keys_set r.Transformations s.Name n fp

theorem registerTransformation_preserves {V : Type} (dirJoin : String → String → String) (fp : String) (r : Project.Registry V)
    (s : Plural.TransformationConfig) :
    (Project.registerTransformation dirJoin fp r s).Sources = r.Sources ∧
    (Project.registerTransformation dirJoin fp r s).Destinations = r.Destinations ∧
    (Project.registerTransformation dirJoin fp r s).Connections = r.Connections ∧
    (Project.registerTransformation dirJoin fp r s).ConnectionList = r.ConnectionList := by
  cases hg : GoMap.get? r.Transformations s.Name <;>
    simp [Project.registerTransformation, hg, apply_ite]

theorem foldTransformation_errors_mono {V : Type} (dirJoin : String → String → String) (fp : String)
    (ss : List (Plural.TransformationConfig)) :
    ∀ (r : Project.Registry V) {e : String}, e ∈ r.collisionErrors →
      e ∈ (ss.foldl (Project.registerTransformation dirJoin fp) r).collisionErrors := by
  induction ss with
  | nil => intro r _ h; exact h
  | cons s ss ih =>
    intro r e h
    exact ih _ (registerTransformation_errors_mono dirJoin fp r s h)

theorem foldTransformation_keys {V : Type} (dirJoin : String → String → String) (fp : String) (ss : List (Plural.TransformationConfig))
    (n : String) :
    ∀ (r : Project.Registry V),
      (n ∈ GoMap.keys (ss.foldl (Project.registerTransformation dirJoin fp) r).Transformations ↔
        n ∈ GoMap.keys r.Transformations ∨ n ∈ ss.map (·.Name)) := by
  induction ss with
  | nil => intro r; simp
  | cons s ss ih =>
    intro r
    rw [List.foldl_cons, ih, registerTransformation_keys]
    constructor
    · rintro ((h | h) | h)
      · exact Or.inl h
      · exact Or.inr (by simp [h])
      · exact Or.inr (by simp [h])
    · rintro (h | h)
      · exact Or.inl (Or.inl h)
      · rcases List.mem_cons.1 h with h1 | h1
        · exact Or.inl (Or.inr h1)
        · exact Or.inr h1

theorem foldTransformation_preserves {V : Type} (dirJoin : String → String → String) (fp : String)
    (ss : List (Plural.TransformationConfig)) :
    ∀ (r : Project.Registry V),
      ((ss.foldl (Project.registerTransformation dirJoin fp) r)).Sources = r.Sources ∧
      ((ss.foldl (Project.registerTransformation dirJoin fp) r)).Destinations = r.Destinations ∧
      ((ss.foldl (Project.registerTransformation dirJoin fp) r)).Connections = r.Connections ∧
      ((ss.foldl (Project.registerTransformation dirJoin fp) r)).ConnectionList = r.ConnectionList := by
  induction ss with
  | nil => intro r; exact ⟨rfl, rfl, rfl, rfl⟩
  | cons s ss ih =>
    intro r
    obtain ⟨h1, h2, h3, h4⟩ := ih (Project.registerTransformation dirJoin fp r s)
    obtain ⟨g1, g2, g3, g4⟩ := registerTransformation_preserves dirJoin fp r s
    exact ⟨h1.trans g1, h2.trans g2, h3.trans g3, h4.trans g4⟩

theorem foldTransformation_dup_of_mem {V : Type} (dirJoin : String → String → String) (fp : String) :
    ∀ (ss : List (Plural.TransformationConfig)) (r : Project.Registry V) (n : String),
      n ∈ GoMap.keys r.Transformations → n ∈ ss.map (·.Name) →
      ∃ f1, Project.dupMsg "transformation" n f1 fp ∈
        (ss.foldl (Project.registerTransformation dirJoin fp) r).collisionErrors := by
  intro ss
  induction ss with
  | nil => intro r n _ h; simp at h
  | cons s ss ih =>
    intro r n hkey hmem
    by_cases hs : s.Name = n
    · obtain ⟨f1, hf1⟩ := GoMap.exists_get?_of_mem_keys hkey
      refine ⟨f1, foldTransformation_errors_mono dirJoin fp ss _ ?_⟩
      simp [Project.registerTransformation, hs, hf1, apply_ite]
    · rcases List.mem_cons.1 hmem with h1 | h1
      · exact absurd h1.symm hs
      · exact ih _ n ((registerTransformation_keys dirJoin fp r s n).2 (Or.inl hkey)) h1

theorem foldTransformation_dup_of_count {V : Type} (dirJoin : String → String → String) (fp : String) :
    ∀ (ss : List (Plural.TransformationConfig)) (r : Project.Registry V) (n : String),
      2 ≤ (ss.map (·.Name)).count n →
      ∃ f1, Project.dupMsg "transformation" n f1 fp ∈
        (ss.foldl (Project.registerTransformation dirJoin fp) r).collisionErrors := by
  intro ss
  induction ss with
  | nil => intro r n h; simp at h
  | cons s ss ih =>
    intro r n hcount
    rw [List.map_cons, List.count_cons] at hcount
    by_cases hs : n = s.Name
    · have h1 : (if (s.Name == n) = true then 1 else 0) = 1 := by simp [hs]
      rw [h1] at hcount
      have hmem : n ∈ ss.map (·.Name) := List.count_pos_iff.1 (by omega)
      exact foldTransformation_dup_of_mem dirJoin fp ss _ n
        ((registerTransformation_keys dirJoin fp r s n).2 (Or.inr hs)) hmem
    · have h1 : (if (s.Name == n) = true then 1 else 0) = 0 := by
        simp [show s.Name ≠ n from fun h => hs h.symm]
      rw [h1] at hcount
      exact ih _ n (by omega)

theorem foldTransformation_noerr {V : Type} (dirJoin : String → String → String) (fp : String) :
    ∀ (ss : List (Plural.TransformationConfig)) (r : Project.Registry V),
      (ss.map (·.Name)).Nodup →
      (∀ x ∈ ss.map (·.Name), x ∉ GoMap.keys r.Transformations) →
      (ss.foldl (Project.registerTransformation dirJoin fp) r).collisionErrors = r.collisionErrors := by
  intro ss
  induction ss with
  | nil => intro r _ _; rfl
  | cons s ss ih =>
    intro r hnd hdisj
    have hkey : s.Name ∉ GoMap.keys r.Transformations := hdisj s.Name (by simp)
    have hg : GoMap.get? r.Transformations s.Name = none :=
      GoMap.get?_eq_none_of_not_mem _ _ hkey
    rw [List.foldl_cons]
    have herr : (Project.registerTransformation dirJoin fp r s).collisionErrors = r.collisionErrors := by
      simp [Project.registerTransformation, hg, apply_ite]
    rw [ih _ (by simpa using hnd.of_cons), herr]
    intro x hx
    rw [registerTransformation_keys]
    rintro (h | h)
    · exact hdisj x (by simp [hx]) h
    · rw [List.map_cons, List.nodup_cons] at hnd
      exact hnd.1 (h ▸ hx)

theorem registerConnection_connList {V : Type} (fp : String) (r : Project.Registry V)
    (c : Plural.ConnectionConfig V) :
    (Project.registerConnection fp r c).ConnectionList = r.ConnectionList ++ [c] := by
  cases hg : GoMap.get? r.Connections c.Name <;> simp [Project.registerConnection, hg]

theorem foldConnection_connList {V : Type} (fp : String)
    (cs : List (Plural.ConnectionConfig V)) :
    ∀ (r : Project.Registry V),
      (cs.foldl (Project.registerConnection fp) r).ConnectionList =
        r.ConnectionList ++ cs := by
  induction cs with
  | nil => intro r; simp
  | cons c cs ih =>
    intro r
    rw [List.foldl_cons, ih, registerConnection_connList]
    simp

theorem addManifest_errors_mono {V : Type} (dirJoin : String → String → String)
    (fp : String) (m : Plural.Manifest V) (r : Project.Registry V) {e : String}
    (h : e ∈ r.collisionErrors) :
    e ∈ (Project.AddManifest dirJoin fp m r).collisionErrors :=
  foldConnection_errors_mono fp m.Connections _
    (foldTransformation_errors_mono dirJoin fp m.Transformations _
      (foldDestination_errors_mono fp m.Destinations _
        (foldSource_errors_mono fp m.Sources r h)))

theorem addManifest_sourceKeys {V : Type} (dirJoin : String → String → String)
    (fp : String) (m : Plural.Manifest V) (r : Project.Registry V) (n : String) :
    n ∈ GoMap.keys (Project.AddManifest dirJoin fp m r).Sources ↔
      n ∈ GoMap.keys r.Sources ∨ n ∈ m.Sources.map (·.Name) := by
  show n ∈ GoMap.keys (m.Connections.foldl (Project.registerConnection fp) _).Sources ↔ _
  rw [(foldConnection_preserves fp m.Connections _).1,
    (foldTransformation_preserves dirJoin fp m.Transformations _).1,
    (foldDestination_preserves fp m.Destinations _).1,
    foldSource_keys]

theorem addManifest_destKeys {V : Type} (dirJoin : String → String → String)
    (fp : String) (m : Plural.Manifest V) (r : Project.Registry V) (n : String) :
    n ∈ GoMap.keys (Project.AddManifest dirJoin fp m r).Destinations ↔
      n ∈ GoMap.keys r.Destinations ∨ n ∈ m.Destinations.map (·.Name) := by
  show n ∈ GoMap.keys (m.Connections.foldl (Project.registerConnection fp) _).Destinations ↔ _
  rw [(foldConnection_preserves fp m.Connections _).2.1,
    (foldTransformation_preserves dirJoin fp m.Transformations _).2.1,
    foldDestination_keys, (foldSource_preserves fp m.Sources r).1]

theorem addManifest_transKeys {V : Type} (dirJoin : String → String → String)
    (fp : String) (m : Plural.Manifest V) (r : Project.Registry V) (n : String) :
    n ∈ GoMap.keys (Project.AddManifest dirJoin fp m r).Transformations ↔
      n ∈ GoMap.keys r.Transformations ∨ n ∈ m.Transformations.map (·.Name) := by
  show n ∈ GoMap.keys (m.Connections.foldl (Project.registerConnection fp) _).Transformations ↔ _
  rw [(foldConnection_preserves fp m.Connections _).2.2,
    foldTransformation_keys, (foldDestination_preserves fp m.Destinations _).2.1,
    (foldSource_preserves fp m.Sources r).2.1]

theorem addManifest_connKeys {V : Type} (dirJoin : String → String → String)
    (fp : String) (m : Plural.Manifest V) (r : Project.Registry V) (n : String) :
    n ∈ GoMap.keys (Project.AddManifest dirJoin fp m r).Connections ↔
      n ∈ GoMap.keys r.Connections ∨ n ∈ m.Connections.map (·.Name) := by
  show n ∈ GoMap.keys (m.Connections.foldl (Project.registerConnection fp) _).Connections ↔ _
  rw [foldConnection_keys, (foldTransformation_preserves dirJoin fp m.Transformations _).2.2.1,
    (foldDestination_preserves fp m.Destinations _).2.2.1,
    (foldSource_preserves fp m.Sources r).2.2.1]

theorem addManifest_connList {V : Type} (dirJoin : String → String → String)
    (fp : String) (m : Plural.Manifest V) (r : Project.Registry V) :
    (Project.AddManifest dirJoin fp m r).ConnectionList =
      r.ConnectionList ++ m.Connections := by
  show (m.Connections.foldl (Project.registerConnection fp) _).ConnectionList = _
  rw [foldConnection_connList, (foldTransformation_preserves dirJoin fp m.Transformations _).2.2.2,
    (foldDestination_preserves fp m.Destinations _).2.2.2,
    (foldSource_preserves fp m.Sources r).2.2.2]

theorem addManifest_dupSource_of_count {V : Type} (dirJoin : String → String → String)
    (fp : String) (m : Plural.Manifest V) (r : Project.Registry V) {n : String}
    (h : 2 ≤ (m.Sources.map (·.Name)).count n) :
    ∃ f1, Project.dupMsg "source" n f1 fp ∈
      (Project.AddManifest dirJoin fp m r).collisionErrors := by
  obtain ⟨f1, hf1⟩ := foldSource_dup_of_count fp m.Sources r n h
  exact ⟨f1, foldConnection_errors_mono fp m.Connections _
    (foldTransformation_errors_mono dirJoin fp m.Transformations _
      (foldDestination_errors_mono fp m.Destinations _ hf1))⟩

theorem addManifest_dupSource_of_mem {V : Type} (dirJoin : String → String → String)
    (fp : String) (m : Plural.Manifest V) (r : Project.Registry V) {n : String}
    (hk : n ∈ GoMap.keys r.Sources) (hm : n ∈ m.Sources.map (·.Name)) :
    ∃ f1, Project.dupMsg "source" n f1 fp ∈
      (Project.AddManifest dirJoin fp m r).collisionErrors := by
  obtain ⟨f1, hf1⟩ := foldSource_dup_of_mem fp m.Sources r n hk hm
  exact ⟨f1, foldConnection_errors_mono fp m.Connections _
    (foldTransformation_errors_mono dirJoin fp m.Transformations _
      (foldDestination_errors_mono fp m.Destinations _ hf1))⟩

theorem addManifest_dupDest_of_count {V : Type} (dirJoin : String → String → String)
    (fp : String) (m : Plural.Manifest V) (r : Project.Registry V) {n : String}
    (h : 2 ≤ (m.Destinations.map (·.Name)).count n) :
    ∃ f1, Project.dupMsg "destination" n f1 fp ∈
      (Project.AddManifest dirJoin fp m r).collisionErrors := by
  obtain ⟨f1, hf1⟩ := foldDestination_dup_of_count fp m.Destinations _ n h
  exact ⟨f1, foldConnection_errors_mono fp m.Connections _
    (foldTransformation_errors_mono dirJoin fp m.Transformations _ hf1)⟩

theorem addManifest_dupDest_of_mem {V : Type} (dirJoin : String → String → String)
    (fp : String) (m : Plural.Manifest V) (r : Project.Registry V) {n : String}
    (hk : n ∈ GoMap.keys r.Destinations) (hm : n ∈ m.Destinations.map (·.Name)) :
    ∃ f1, Project.dupMsg "destination" n f1 fp ∈
      (Project.AddManifest dirJoin fp m r).collisionErrors := by
  have hk1 : n ∈ GoMap.keys
      (m.Sources.foldl (Project.registerSource fp) r).Destinations := by
    rw [(foldSource_preserves fp m.Sources r).1]
    exact hk
  obtain ⟨f1, hf1⟩ := foldDestination_dup_of_mem fp m.Destinations _ n hk1 hm
  exact ⟨f1, foldConnection_errors_mono fp m.Connections _
    (foldTransformation_errors_mono dirJoin fp m.Transformations _ hf1)⟩

theorem addManifest_dupTrans_of_count {V : Type} (dirJoin : String → String → String)
    (fp : String) (m : Plural.Manifest V) (r : Project.Registry V) {n : String}
    (h : 2 ≤ (m.Transformations.map (·.Name)).count n) :
    ∃ f1, Project.dupMsg "transformation" n f1 fp ∈
      (Project.AddManifest dirJoin fp m r).collisionErrors := by
  obtain ⟨f1, hf1⟩ := foldTransformation_dup_of_count dirJoin fp m.Transformations _ n h
  exact ⟨f1, foldConnection_errors_mono fp m.Connections _ hf1⟩

theorem addManifest_dupTrans_of_mem {V : Type} (dirJoin : String → String → String)
    (fp : String) (m : Plural.Manifest V) (r : Project.Registry V) {n : String}
    (hk : n ∈ GoMap.keys r.Transformations) (hm : n ∈ m.Transformations.map (·.Name)) :
    ∃ f1, Project.dupMsg "transformation" n f1 fp ∈
      (Project.AddManifest dirJoin fp m r).collisionErrors := by
  have hk1 : n ∈ GoMap.keys
      (m.Destinations.foldl (Project.registerDestination fp)
        (m.Sources.foldl (Project.registerSource fp) r)).Transformations := by
    rw [(foldDestination_preserves fp m.Destinations _).2.1,
      (foldSource_preserves fp m.Sources r).2.1]
    exact hk
  obtain ⟨f1, hf1⟩ := foldTransformation_dup_of_mem dirJoin fp m.Transformations _ n hk1 hm
  exact ⟨f1, foldConnection_errors_mono fp m.Connections _ hf1⟩

theorem addManifest_dupConn_of_count {V : Type} (dirJoin : String → String → String)
    (fp : String) (m : Plural.Manifest V) (r : Project.Registry V) {n : String}
    (h : 2 ≤ (m.Connections.map (·.Name)).count n) :
    ∃ f1, Project.dupMsg "connection" n f1 fp ∈
      (Project.AddManifest dirJoin fp m r).collisionErrors :=
  foldConnection_dup_of_count fp m.Connections _ n h

theorem addManifest_dupConn_of_mem {V : Type} (dirJoin : String → String → String)
    (fp : String) (m : Plural.Manifest V) (r : Project.Registry V) {n : String}
    (hk : n ∈ GoMap.keys r.Connections) (hm : n ∈ m.Connections.map (·.Name)) :
    ∃ f1, Project.dupMsg "connection" n f1 fp ∈
      (Project.AddManifest dirJoin fp m r).collisionErrors := by
  have hk1 : n ∈ GoMap.keys
      (m.Transformations.foldl (Project.registerTransformation dirJoin fp)
        (m.Destinations.foldl (Project.registerDestination fp)
          (m.Sources.foldl (Project.registerSource fp) r))).Connections := by
    rw [(foldTransformation_preserves dirJoin fp m.Transformations _).2.2.1,
      (foldDestination_preserves fp m.Destinations _).2.2.1,
      (foldSource_preserves fp m.Sources r).2.2.1]
    exact hk
  exact foldConnection_dup_of_mem fp m.Connections _ n hk1 hm

theorem addManifest_noerr {V : Type} (dirJoin : String → String → String)
    (fp : String) (m : Plural.Manifest V) (r : Project.Registry V)
    (hs : (m.Sources.map (·.Name)).Nodup)
    (hd : (m.Destinations.map (·.Name)).Nodup)
    (ht : (m.Transformations.map (·.Name)).Nodup)
    (hc : (m.Connections.map (·.Name)).Nodup)
    (ds : ∀ x ∈ m.Sources.map (·.Name), x ∉ GoMap.keys r.Sources)
    (dd : ∀ x ∈ m.Destinations.map (·.Name), x ∉ GoMap.keys r.Destinations)
    (dt : ∀ x ∈ m.Transformations.map (·.Name), x ∉ GoMap.keys r.Transformations)
    (dc : ∀ x ∈ m.Connections.map (·.Name), x ∉ GoMap.keys r.Connections) :
    (Project.AddManifest dirJoin fp m r).collisionErrors = r.collisionErrors := by
  show (m.Connections.foldl (Project.registerConnection fp) _).collisionErrors = _
  rw [foldConnection_noerr fp m.Connections _ hc, foldTransformation_noerr dirJoin fp
    m.Transformations _ ht, foldDestination_noerr fp m.Destinations _ hd,
    foldSource_noerr fp m.Sources r hs ds]
  · intro x hx
    rw [(foldSource_preserves fp m.Sources r).1]
    exact dd x hx
  · intro x hx
    rw [(foldDestination_preserves fp m.Destinations _).2.1,
      (foldSource_preserves fp m.Sources r).2.1]
    exact dt x hx
  · intro x hx
    rw [(foldTransformation_preserves dirJoin fp m.Transformations _).2.2.1,
      (foldDestination_preserves fp m.Destinations _).2.2.1,
      (foldSource_preserves fp m.Sources r).2.2.1]
    exact dc x hx

theorem buildFold_errors_mono {V : Type} (dirJoin : String → String → String) :
    ∀ (ms : List (String × Plural.Manifest V)) (r : Project.Registry V) {e : String},
      e ∈ r.collisionErrors →
      e ∈ (ms.foldl (fun r fm => Project.AddManifest dirJoin fm.1 fm.2 r) r).collisionErrors := by
  intro ms
  induction ms with
  | nil => intro r _ h; exact h
  | cons fm ms ih =>
    intro r e h
    exact ih _ (addManifest_errors_mono dirJoin fm.1 fm.2 r h)

theorem buildFold_connList {V : Type} (dirJoin : String → String → String) :
    ∀ (ms : List (String × Plural.Manifest V)) (r : Project.Registry V),
      (ms.foldl (fun r fm => Project.AddManifest dirJoin fm.1 fm.2 r) r).ConnectionList =
        r.ConnectionList ++ ms.flatMap (fun fm => fm.2.Connections) := by
  intro ms
  induction ms with
  | nil => intro r; simp
  | cons fm ms ih =>
    intro r
    rw [List.foldl_cons, ih, addManifest_connList]
    simp

theorem buildFold_sourceKeys {V : Type} (dirJoin : String → String → String) :
    ∀ (ms : List (String × Plural.Manifest V)) (r : Project.Registry V) (n : String),
      (n ∈ GoMap.keys
          (ms.foldl (fun r fm => Project.AddManifest dirJoin fm.1 fm.2 r) r).Sources ↔
        n ∈ GoMap.keys r.Sources ∨ n ∈ sourceNames ms) := by
  intro ms
  induction ms with
  | nil => intro r n; simp [sourceNames]
  | cons fm ms ih =>
    intro r n
    rw [List.foldl_cons, ih, addManifest_sourceKeys]
    have hsplit : sourceNames (fm :: ms) =
        fm.2.Sources.map (·.Name) ++ sourceNames ms := by
      simp [sourceNames]
    rw [hsplit]
    constructor
    · rintro ((h | h) | h)
      · exact Or.inl h
      · exact Or.inr (List.mem_append_left _ h)
      · exact Or.inr (List.mem_append_right _ h)
    · rintro (h | h)
      · exact Or.inl (Or.inl h)
      · rcases List.mem_append.1 h with h1 | h1
        · exact Or.inl (Or.inr h1)
        · exact Or.inr h1

theorem buildFold_dupSource {V : Type} (dirJoin : String → String → String) :
    ∀ (ms : List (String × Plural.Manifest V)) (r : Project.Registry V) (n : String),
      (2 ≤ (sourceNames ms).count n ∨
        (n ∈ GoMap.keys r.Sources ∧ n ∈ sourceNames ms)) →
      ∃ f1 f2, Project.dupMsg "source" n f1 f2 ∈
        (ms.foldl (fun r fm => Project.AddManifest dirJoin fm.1 fm.2 r) r).collisionErrors := by
  intro ms
  induction ms with
  | nil =>
    intro r n h
    rcases h with h | h
    · simp [sourceNames] at h
    · simp [sourceNames] at h
  | cons fm ms ih =>
    intro r n h
    rw [List.foldl_cons]
    have hsplit : sourceNames (fm :: ms) =
        fm.2.Sources.map (·.Name) ++ sourceNames ms := by
      simp [sourceNames]
    rcases h with h | h
    · rw [hsplit, List.count_append] at h
      by_cases h1 : 2 ≤ (fm.2.Sources.map (·.Name)).count n
      · obtain ⟨f1, hf1⟩ := addManifest_dupSource_of_count dirJoin fm.1 fm.2 r h1
        exact ⟨f1, fm.1, buildFold_errors_mono dirJoin ms _ hf1⟩
      · by_cases h2 : 1 ≤ (fm.2.Sources.map (·.Name)).count n
        · have hmem1 : n ∈ fm.2.Sources.map (·.Name) :=
            List.count_pos_iff.1 (by omega)
          have hmem2 : n ∈ sourceNames ms := List.count_pos_iff.1 (by omega)
          exact ih _ n (Or.inr
            ⟨(addManifest_sourceKeys dirJoin fm.1 fm.2 r n).2 (Or.inr hmem1), hmem2⟩)
        · exact ih _ n (Or.inl (by omega))
    · obtain ⟨hk, hm⟩ := h
      rw [hsplit] at hm
      rcases List.mem_append.1 hm with hm1 | hm1
      · obtain ⟨f1, hf1⟩ := addManifest_dupSource_of_mem dirJoin fm.1 fm.2 r hk hm1
        exact ⟨f1, fm.1, buildFold_errors_mono dirJoin ms _ hf1⟩
      · exact ih _ n (Or.inr
          ⟨(addManifest_sourceKeys dirJoin fm.1 fm.2 r n).2 (Or.inl hk), hm1⟩)

theorem buildFold_destKeys {V : Type} (dirJoin : String → String → String) :
    ∀ (ms : List (String × Plural.Manifest V)) (r : Project.Registry V) (n : String),
      (n ∈ GoMap.keys
          (ms.foldl (fun r fm => Project.AddManifest dirJoin fm.1 fm.2 r) r).Destinations ↔
        n ∈ GoMap.keys r.Destinations ∨ n ∈ destinationNames ms) := by
  intro ms
  induction ms with
  | nil => intro r n; simp [destinationNames]
  | cons fm ms ih =>
    intro r n
    rw [List.foldl_cons, ih, addManifest_destKeys]
    have hsplit : destinationNames (fm :: ms) =
        fm.2.Destinations.map (·.Name) ++ destinationNames ms := by
      simp [destinationNames]
    rw [hsplit]
    constructor
    · rintro ((h | h) | h)
      · exact Or.inl h
      · exact Or.inr (List.mem_append_left _ h)
      · exact Or.inr (List.mem_append_right _ h)
    · rintro (h | h)
      · exact Or.inl (Or.inl h)
      · rcases List.mem_append.1 h with h1 | h1
        · exact Or.inl (Or.inr h1)
        · exact Or.inr h1

theorem buildFold_dupDest {V : Type} (dirJoin : String → String → String) :
    ∀ (ms : List (String × Plural.Manifest V)) (r : Project.Registry V) (n : String),
      (2 ≤ (destinationNames ms).count n ∨
        (n ∈ GoMap.keys r.Destinations ∧ n ∈ destinationNames ms)) →
      ∃ f1 f2, Project.dupMsg "destination" n f1 f2 ∈
        (ms.foldl (fun r fm => Project.AddManifest dirJoin fm.1 fm.2 r) r).collisionErrors := by
  intro ms
  induction ms with
  | nil =>
    intro r n h
    rcases h with h | h
    · simp [destinationNames] at h
    · simp [destinationNames] at h
  | cons fm ms ih =>
    intro r n h
    rw [List.foldl_cons]
    have hsplit : destinationNames (fm :: ms) =
        fm.2.Destinations.map (·.Name) ++ destinationNames ms := by
      simp [destinationNames]
    rcases h with h | h
    · rw [hsplit, List.count_append] at h
      by_cases h1 : 2 ≤ (fm.2.Destinations.map (·.Name)).count n
      · obtain ⟨f1, hf1⟩ := addManifest_dupDest_of_count dirJoin fm.1 fm.2 r h1
        exact ⟨f1, fm.1, buildFold_errors_mono dirJoin ms _ hf1⟩
      · by_cases h2 : 1 ≤ (fm.2.Destinations.map (·.Name)).count n
        · have hmem1 : n ∈ fm.2.Destinations.map (·.Name) :=
            List.count_pos_iff.1 (by omega)
          have hmem2 : n ∈ destinationNames ms := List.count_pos_iff.1 (by omega)
          exact ih _ n (Or.inr
            ⟨(addManifest_destKeys dirJoin fm.1 fm.2 r n).2 (Or.inr hmem1), hmem2⟩)
        · exact ih _ n (Or.inl (by omega))
    · obtain ⟨hk, hm⟩ := h
      rw [hsplit] at hm
      rcases List.mem_append.1 hm with hm1 | hm1
      · obtain ⟨f1, hf1⟩ := addManifest_dupDest_of_mem dirJoin fm.1 fm.2 r hk hm1
        exact ⟨f1, fm.1, buildFold_errors_mono dirJoin ms _ hf1⟩
      · exact ih _ n (Or.inr
          ⟨(addManifest_destKeys dirJoin fm.1 fm.2 r n).2 (Or.inl hk), hm1⟩)

theorem buildFold_transKeys {V : Type} (dirJoin : String → String → String) :
    ∀ (ms : List (String × Plural.Manifest V)) (r : Project.Registry V) (n : String),
      (n ∈ GoMap.keys
          (ms.foldl (fun r fm => Project.AddManifest dirJoin fm.1 fm.2 r) r).Transformations ↔
        n ∈ GoMap.keys r.Transformations ∨ n ∈ transformationNames ms) := by
  intro ms
  induction ms with
  | nil => intro r n; simp [transformationNames]
  | cons fm ms ih =>
    intro r n
    rw [List.foldl_cons, ih, addManifest_transKeys]
    have hsplit : transformationNames (fm :: ms) =
        fm.2.Transformations.map (·.Name) ++ transformationNames ms := by
      simp [transformationNames]
    rw [hsplit]
    constructor
    · rintro ((h | h) | h)
      · exact Or.inl h
      · exact Or.inr (List.mem_append_left _ h)
      · exact Or.inr (List.mem_append_right _ h)
    · rintro (h | h)
      · exact Or.inl (Or.inl h)
      · rcases List.mem_append.1 h with h1 | h1
        · exact Or.inl (Or.inr h1)
        · exact Or.inr h1

theorem buildFold_dupTrans {V : Type} (dirJoin : String → String → String) :
    ∀ (ms : List (String × Plural.Manifest V)) (r : Project.Registry V) (n : String),
      (2 ≤ (transformationNames ms).count n ∨
        (n ∈ GoMap.keys r.Transformations ∧ n ∈ transformationNames ms)) →
      ∃ f1 f2, Project.dupMsg "transformation" n f1 f2 ∈
        (ms.foldl (fun r fm => Project.AddManifest dirJoin fm.1 fm.2 r) r).collisionErrors := by
  intro ms
  induction ms with
  | nil =>
    intro r n h
    rcases h with h | h
    · simp [transformationNames] at h
    · simp [transformationNames] at h
  | cons fm ms ih =>
    intro r n h
    rw [List.foldl_cons]
    have hsplit : transformationNames (fm :: ms) =
        fm.2.Transformations.map (·.Name) ++ transformationNames ms := by
      simp [transformationNames]
    rcases h with h | h
    · rw [hsplit, List.count_append] at h
      by_cases h1 : 2 ≤ (fm.2.Transformations.map (·.Name)).count n
      · obtain ⟨f1, hf1⟩ := addManifest_dupTrans_of_count dirJoin fm.1 fm.2 r h1
        exact ⟨f1, fm.1, buildFold_errors_mono dirJoin ms _ hf1⟩
      · by_cases h2 : 1 ≤ (fm.2.Transformations.map (·.Name)).count n
        · have hmem1 : n ∈ fm.2.Transformations.map (·.Name) :=
            List.count_pos_iff.1 (by omega)
          have hmem2 : n ∈ transformationNames ms := List.count_pos_iff.1 (by omega)
          exact ih _ n (Or.inr
            ⟨(addManifest_transKeys dirJoin fm.1 fm.2 r n).2 (Or.inr hmem1), hmem2⟩)
        · exact ih _ n (Or.inl (by omega))
    · obtain ⟨hk, hm⟩ := h
      rw [hsplit] at hm
      rcases List.mem_append.1 hm with hm1 | hm1
      · obtain ⟨f1, hf1⟩ := addManifest_dupTrans_of_mem dirJoin fm.1 fm.2 r hk hm1
        exact ⟨f1, fm.1, buildFold_errors_mono dirJoin ms _ hf1⟩
      · exact ih _ n (Or.inr
          ⟨(addManifest_transKeys dirJoin fm.1 fm.2 r n).2 (Or.inl hk), hm1⟩)

theorem buildFold_connKeys {V : Type} (dirJoin : String → String → String) :
    ∀ (ms : List (String × Plural.Manifest V)) (r : Project.Registry V) (n : String),
      (n ∈ GoMap.keys
          (ms.foldl (fun r fm => Project.AddManifest dirJoin fm.1 fm.2 r) r).Connections ↔
        n ∈ GoMap.keys r.Connections ∨ n ∈ connectionNames ms) := by
  intro ms
  induction ms with
  | nil => intro r n; simp [connectionNames]
  | cons fm ms ih =>
    intro r n
    rw [List.foldl_cons, ih, addManifest_connKeys]
    have hsplit : connectionNames (fm :: ms) =
        fm.2.Connections.map (·.Name) ++ connectionNames ms := by
      simp [connectionNames]
    rw [hsplit]
    constructor
    · rintro ((h | h) | h)
      · exact Or.inl h
      · exact Or.inr (List.mem_append_left _ h)
      · exact Or.inr (List.mem_append_right _ h)
    · rintro (h | h)
      · exact Or.inl (Or.inl h)
      · rcases List.mem_append.1 h with h1 | h1
        · exact Or.inl (Or.inr h1)
        · exact Or.inr h1

theorem buildFold_dupConn {V : Type} (dirJoin : String → String → String) :
    ∀ (ms : List (String × Plural.Manifest V)) (r : Project.Registry V) (n : String),
      (2 ≤ (connectionNames ms).count n ∨
        (n ∈ GoMap.keys r.Connections ∧ n ∈ connectionNames ms)) →
      ∃ f1 f2, Project.dupMsg "connection" n f1 f2 ∈
        (ms.foldl (fun r fm => Project.AddManifest dirJoin fm.1 fm.2 r) r).collisionErrors := by
  intro ms
  induction ms with
  | nil =>
    intro r n h
    rcases h with h | h
    · simp [connectionNames] at h
    · simp [connectionNames] at h
  | cons fm ms ih =>
    intro r n h
    rw [List.foldl_cons]
    have hsplit : connectionNames (fm :: ms) =
        fm.2.Connections.map (·.Name) ++ connectionNames ms := by
      simp [connectionNames]
    rcases h with h | h
    · rw [hsplit, List.count_append] at h
      by_cases h1 : 2 ≤ (fm.2.Connections.map (·.Name)).count n
      · obtain ⟨f1, hf1⟩ := addManifest_dupConn_of_count dirJoin fm.1 fm.2 r h1
        exact ⟨f1, fm.1, buildFold_errors_mono dirJoin ms _ hf1⟩
      · by_cases h2 : 1 ≤ (fm.2.Connections.map (·.Name)).count n
        · have hmem1 : n ∈ fm.2.Connections.map (·.Name) :=
            List.count_pos_iff.1 (by omega)
          have hmem2 : n ∈ connectionNames ms := List.count_pos_iff.1 (by omega)
          exact ih _ n (Or.inr
            ⟨(addManifest_connKeys dirJoin fm.1 fm.2 r n).2 (Or.inr hmem1), hmem2⟩)
        · exact ih _ n (Or.inl (by omega))
    · obtain ⟨hk, hm⟩ := h
      rw [hsplit] at hm
      rcases List.mem_append.1 hm with hm1 | hm1
      · obtain ⟨f1, hf1⟩ := addManifest_dupConn_of_mem dirJoin fm.1 fm.2 r hk hm1
        exact ⟨f1, fm.1, buildFold_errors_mono dirJoin ms _ hf1⟩
      · exact ih _ n (Or.inr
          ⟨(addManifest_connKeys dirJoin fm.1 fm.2 r n).2 (Or.inl hk), hm1⟩)

theorem buildFold_noerr {V : Type} (dirJoin : String → String → String) :
    ∀ (ms : List (String × Plural.Manifest V)) (r : Project.Registry V),
      (sourceNames ms).Nodup → (destinationNames ms).Nodup →
      (transformationNames ms).Nodup → (connectionNames ms).Nodup →
      (∀ x ∈ sourceNames ms, x ∉ GoMap.keys r.Sources) →
      (∀ x ∈ destinationNames ms, x ∉ GoMap.keys r.Destinations) →
      (∀ x ∈ transformationNames ms, x ∉ GoMap.keys r.Transformations) →
      (∀ x ∈ connectionNames ms, x ∉ GoMap.keys r.Connections) →
      (ms.foldl (fun r fm => Project.AddManifest dirJoin fm.1 fm.2 r) r).collisionErrors =
        r.collisionErrors := by
  intro ms
  induction ms with
  | nil => intro r _ _ _ _ _ _ _ _; rfl
  | cons fm ms ih =>
    intro r hs hd ht hc ds dd dt dc
    have hssplit : sourceNames (fm :: ms) =
        fm.2.Sources.map (·.Name) ++ sourceNames ms := by simp [sourceNames]
    have hdsplit : destinationNames (fm :: ms) =
        fm.2.Destinations.map (·.Name) ++ destinationNames ms := by
      simp [destinationNames]
    have htsplit : transformationNames (fm :: ms) =
        fm.2.Transformations.map (·.Name) ++ transformationNames ms := by
      simp [transformationNames]
    have hcsplit : connectionNames (fm :: ms) =
        fm.2.Connections.map (·.Name) ++ connectionNames ms := by
      simp [connectionNames]
    rw [hssplit, List.nodup_append] at hs
    rw [hdsplit, List.nodup_append] at hd
    rw [htsplit, List.nodup_append] at ht
    rw [hcsplit, List.nodup_append] at hc
    rw [hssplit] at ds
    rw [hdsplit] at dd
    rw [htsplit] at dt
    rw [hcsplit] at dc
    rw [List.foldl_cons]
    rw [ih _ hs.2.1 hd.2.1 ht.2.1 hc.2.1 ?_ ?_ ?_ ?_,
      addManifest_noerr dirJoin fm.1 fm.2 r hs.1 hd.1 ht.1 hc.1
        (fun x hx => ds x (List.mem_append_left _ hx))
        (fun x hx => dd x (List.mem_append_left _ hx))
        (fun x hx => dt x (List.mem_append_left _ hx))
        (fun x hx => dc x (List.mem_append_left _ hx))]
    · intro x hx
      rw [addManifest_sourceKeys]
      rintro (h | h)
      · exact ds x (List.mem_append_right _ hx) h
      · exact hs.2.2 h hx
    · intro x hx
      rw [addManifest_destKeys]
      rintro (h | h)
      · exact dd x (List.mem_append_right _ hx) h
      · exact hd.2.2 h hx
    · intro x hx
      rw [addManifest_transKeys]
      rintro (h | h)
      · exact dt x (List.mem_append_right _ hx) h
      · exact ht.2.2 h hx
    · intro x hx
      rw [addManifest_connKeys]
      rintro (h | h)
      · exact dc x (List.mem_append_right _ hx) h
      · exact hc.2.2 h hx

theorem validate_mem_collision {V : Type} (r : Project.Registry V) {e : String}
    (h : e ∈ r.collisionErrors) : e ∈ Project.Validate r :=
  List.mem_append_left _ h

theorem validate_mem_connErr {V : Type} (r : Project.Registry V)
    {c : Plural.ConnectionConfig V} {e : String} (hc : c ∈ r.ConnectionList)
    (he : e ∈ Project.connectionErrors r c) : e ∈ Project.Validate r :=
  List.mem_append_right _
    (foldl_append_mem (Project.connectionErrors r) e r.ConnectionList [] c hc he)

theorem connErr_source {V : Type} (r : Project.Registry V)
    (c : Plural.ConnectionConfig V) (h1 : c.Source ≠ "")
    (h2 : GoMap.get? r.Sources c.Source = none) :
    Project.refMsg c.Name "source" c.Source ∈ Project.connectionErrors r c := by
  unfold Project.connectionErrors
  refine List.mem_append_left _ (List.mem_append_left _ ?_)
  rw [if_pos ⟨h1, by rw [h2]; rfl⟩]
  exact List.mem_singleton_self _

theorem connErr_dest {V : Type} (r : Project.Registry V)
    (c : Plural.ConnectionConfig V) (h1 : c.Destination ≠ "")
    (h2 : GoMap.get? r.Destinations c.Destination = none) :
    Project.refMsg c.Name "destination" c.Destination ∈
      Project.connectionErrors r c := by
  unfold Project.connectionErrors
  refine List.mem_append_left _ (List.mem_append_right _ ?_)
  rw [if_pos ⟨h1, by rw [h2]; rfl⟩]
  exact List.mem_singleton_self _

theorem connErr_trans {V : Type} (r : Project.Registry V)
    (c : Plural.ConnectionConfig V) {tn : String} (h1 : tn ∈ c.Transformations)
    (h2 : GoMap.get? r.Transformations tn = none) :
    Project.refMsg c.Name "transformation" tn ∈ Project.connectionErrors r c := by
  unfold Project.connectionErrors
  refine List.mem_append_right _ ?_
  exact foldl_append_mem
    (fun tn => if (GoMap.get? r.Transformations tn).isNone then
      [Project.refMsg c.Name "transformation" tn] else [])
    _ c.Transformations [] tn h1 (by simp only []; rw [h2]; simp)

/-- **C9**.  Multi-manifest validation accumulates findings: after adding
any sequence of manifests, `Validate` reports a duplicate-name error for
every name declared at least twice within a kind (all four kinds), and a
broken-reference error for every connection whose source / destination /
transformation reference names no declared resource — all in the same
returned list, never stopping at the first problem; and when each kind's
names are unique there are no collision errors at all, so resources of
different kinds may freely share a name. -/
theorem c9_registry_validation {V : Type} (dirJoin : String → String → String)
    (ms : List (String × Plural.Manifest V)) :
    (∀ n, 2 ≤ (sourceNames ms).count n → ∃ f1 f2,
      Project.dupMsg "source" n f1 f2 ∈
        Project.Validate (Project.buildRegistry dirJoin ms)) ∧
    (∀ n, 2 ≤ (destinationNames ms).count n → ∃ f1 f2,
      Project.dupMsg "destination" n f1 f2 ∈
        Project.Validate (Project.buildRegistry dirJoin ms)) ∧
    (∀ n, 2 ≤ (transformationNames ms).count n → ∃ f1 f2,
      Project.dupMsg "transformation" n f1 f2 ∈
        Project.Validate (Project.buildRegistry dirJoin ms)) ∧
    (∀ n, 2 ≤ (connectionNames ms).count n → ∃ f1 f2,
      Project.dupMsg "connection" n f1 f2 ∈
        Project.Validate (Project.buildRegistry dirJoin ms)) ∧
    (∀ fm (c : Plural.ConnectionConfig V), fm ∈ ms → c ∈ fm.2.Connections →
      c.Source ≠ "" → c.Source ∉ sourceNames ms →
      Project.refMsg c.Name "source" c.Source ∈
        Project.Validate (Project.buildRegistry dirJoin ms)) ∧
    (∀ fm (c : Plural.ConnectionConfig V), fm ∈ ms → c ∈ fm.2.Connections →
      c.Destination ≠ "" → c.Destination ∉ destinationNames ms →
      Project.refMsg c.Name "destination" c.Destination ∈
        Project.Validate (Project.buildRegistry dirJoin ms)) ∧
    (∀ fm (c : Plural.ConnectionConfig V) tn, fm ∈ ms → c ∈ fm.2.Connections →
      tn ∈ c.Transformations → tn ∉ transformationNames ms →
      Project.refMsg c.Name "transformation" tn ∈
        Project.Validate (Project.buildRegistry dirJoin ms)) ∧
    ((sourceNames ms).Nodup → (destinationNames ms).Nodup →
      (transformationNames ms).Nodup → (connectionNames ms).Nodup →
      (Project.buildRegistry dirJoin ms).collisionErrors = []) := by
  have hconnList : (Project.buildRegistry dirJoin ms).ConnectionList =
      ms.flatMap (fun fm => fm.2.Connections) := by
    unfold Project.buildRegistry
    rw [buildFold_connList]
    rfl
  refine ⟨?_, ?_, ?_, ?_, ?_, ?_, ?_, ?_⟩
  · intro n h
    obtain ⟨f1, f2, hf⟩ :=
      buildFold_dupSource dirJoin ms Project.NewRegistry n (Or.inl h)
    exact ⟨f1, f2, validate_mem_collision _ hf⟩
  · intro n h
    obtain ⟨f1, f2, hf⟩ :=
      buildFold_dupDest dirJoin ms Project.NewRegistry n (Or.inl h)
    exact ⟨f1, f2, validate_mem_collision _ hf⟩
  · intro n h
    obtain ⟨f1, f2, hf⟩ :=
      buildFold_dupTrans dirJoin ms Project.NewRegistry n (Or.inl h)
    exact ⟨f1, f2, validate_mem_collision _ hf⟩
  · intro n h
    obtain ⟨f1, f2, hf⟩ :=
      buildFold_dupConn dirJoin ms Project.NewRegistry n (Or.inl h)
    exact ⟨f1, f2, validate_mem_collision _ hf⟩
  · intro fm c hfm hc hne hnot
    have hconn : c ∈ (Project.buildRegistry dirJoin ms).ConnectionList := by
      rw [hconnList]
      exact List.mem_flatMap.2 ⟨fm, hfm, hc⟩
    have hkeys : c.Source ∉ GoMap.keys (Project.buildRegistry dirJoin ms).Sources := by
      intro hmem
      rcases (buildFold_sourceKeys dirJoin ms Project.NewRegistry c.Source).1 hmem with
        h | h
      · simp [Project.NewRegistry] at h
      · exact hnot h
    exact validate_mem_connErr _ hconn
      (connErr_source _ c hne (GoMap.get?_eq_none_of_not_mem _ _ hkeys))
  · intro fm c hfm hc hne hnot
    have hconn : c ∈ (Project.buildRegistry dirJoin ms).ConnectionList := by
      rw [hconnList]
      exact List.mem_flatMap.2 ⟨fm, hfm, hc⟩
    have hkeys : c.Destination ∉
        GoMap.keys (Project.buildRegistry dirJoin ms).Destinations := by
      intro hmem
      rcases (buildFold_destKeys dirJoin ms Project.NewRegistry c.Destination).1 hmem with
        h | h
      · simp [Project.NewRegistry] at h
      · exact hnot h
    exact validate_mem_connErr _ hconn
      (connErr_dest _ c hne (GoMap.get?_eq_none_of_not_mem _ _ hkeys))
  · intro fm c tn hfm hc htn hnot
    have hconn : c ∈ (Project.buildRegistry dirJoin ms).ConnectionList := by
      rw [hconnList]
      exact List.mem_flatMap.2 ⟨fm, hfm, hc⟩
    have hkeys : tn ∉
        GoMap.keys (Project.buildRegistry dirJoin ms).Transformations := by
      intro hmem
      rcases (buildFold_transKeys dirJoin ms Project.NewRegistry tn).1 hmem with h | h
      · simp [Project.NewRegistry] at h
      · exact hnot h
    exact validate_mem_connErr _ hconn
      (connErr_trans _ c htn (GoMap.get?_eq_none_of_not_mem _ _ hkeys))
  · intro h1 h2 h3 h4
    unfold Project.buildRegistry
    rw [buildFold_noerr dirJoin ms Project.NewRegistry h1 h2 h3 h4
      (by intro x _ hx; simp [Project.NewRegistry] at hx)
      (by intro x _ hx; simp [Project.NewRegistry] at hx)
      (by intro x _ hx; simp [Project.NewRegistry] at hx)
      (by intro x _ hx; simp [Project.NewRegistry] at hx)]
    rfl

/-- **C9** witness: one concrete sequence gives both a duplicate-source
error and a broken-destination-reference error in the same `Validate`
output, while cross-kind name sharing alone yields no collision error. -/
theorem c9_registry_validation_witness :
    (∃ f1 f2, Project.dupMsg "source" "a" f1 f2 ∈
      Project.Validate (Project.buildRegistry (fun _ cf => cf) c9MS)) ∧
    Project.refMsg "c" "destination" "missing-dest" ∈
      Project.Validate (Project.buildRegistry (fun _ cf => cf) c9MS) ∧
    (Project.buildRegistry (fun _ cf => cf) c9OK).collisionErrors = [] := by
  obtain ⟨hdupS, _, _, _, _, hrefD, _, _⟩ :=
    c9_registry_validation (fun _ cf => cf) c9MS
  obtain ⟨_, _, _, _, _, _, _, hok⟩ := c9_registry_validation (fun _ cf => cf) c9OK
  refine ⟨hdupS "a" (by decide), ?_,
    hok (by decide) (by decide) (by decide) (by decide)⟩
  exact hrefD
    ("f2", { Sources := [{ Name := "a" }],
             Connections := [{ Name := "c", Source := "a",
                               Destination := "missing-dest" }] })
    { Name := "c", Source := "a", Destination := "missing-dest" }
    (by decide) (by decide) (by decide) (by decide)
